import Mathlib

/-!
Verification of the rawlee-scraper crawl-coordination engine.

The definitions below are a shallow embedding of the Python sources:
`src/init_queue.py` (work-unit queue initialization), `src/main.py`
(`RedisDedup`, `DistributedScraper`), and `src/config.py` (constants).
Machine floats that only feed threshold comparisons are modelled as
rationals; Python `int()` truncation of `c * 0.8` and `c * 1.1` on the
natural-number batch sizes that occur here coincides with `c * 4 / 5`
and `c * 11 / 10` in natural-number (floor) division.
-/

set_option maxRecDepth 4096

namespace Scraper


/-! ## Configuration constants (src/config.py) -/

def LIMIT_PER_PAGE : Nat := 20

def BATCH_SIZE : Nat := 100

def REQUEST_TIMEOUT : ℚ := 30

def ID_RANGE_START : Int := 2700000

def ID_RANGE_END : Int := 115000000

def CHUNK_SIZE : Int := 10000

/-! ## Work-unit generation (src/init_queue.py, lines 41-44)

`for start in range(ID_RANGE_START, ID_RANGE_END, CHUNK_SIZE):
     end = min(start + CHUNK_SIZE, ID_RANGE_END)
     chunks.append(f"{start}:{end}")`
-/

/-- Fuel-indexed unrolling of the `for start in range(rs, re, cs)` loop of
`init_queue`; the fuel only makes the recursion structural and is irrelevant
once it is at least `(re - rs).toNat` (one loop iteration consumes at least
`cs ≥ 1` of the remaining distance). -/
def chunkRangesAux : Nat → Int → Int → Int → List (Int × Int)
  | 0, _, _, _ => []
  | fuel + 1, rs, re, cs =>
    if rs < re ∧ 0 < cs then
      (rs, min (rs + cs) re) :: chunkRangesAux fuel (rs + cs) re cs
    else []

/-- The list of half-open ranges produced by the `for start in range(rs, re, cs)`
loop of `init_queue`: one pair `(start, min (start+cs) re)` per loop iteration. -/
def chunkRanges (rs re cs : Int) : List (Int × Int) :=
  chunkRangesAux (re - rs).toNat rs re cs

/-- Serialization of a work unit as the `"start:end"` string pushed to the queue. -/
def unitStr (p : Int × Int) : String :=
  toString p.1 ++ ":" ++ toString p.2

/-- The serialized chunks pushed by `init_queue`. -/
def chunkStrings (rs re cs : Int) : List String :=
  (chunkRanges rs re cs).map unitStr

/-! ## Shared dedup store (src/main.py, class RedisDedup)

The remote set `scraper:seen_ids` is modelled as a `Finset String` passed
explicitly; `SADD` returns the number of members newly added and `SISMEMBER`
tests membership, both atomic.  Each operation takes an `ok : Bool` oracle:
`ok = false` models the `except:` arms (the call raised; the store is
unchanged and the fallback value is returned). -/

/-- Redis `SADD key pid`: `(number newly added, updated set)`. -/
def sadd (server : Finset String) (pid : String) : Nat × Finset String :=
  (if pid ∈ server then 0 else 1, insert pid server)

/-- Redis `SISMEMBER key pid`. -/
def sismember (server : Finset String) (pid : String) : Bool :=
  pid ∈ server

/-- Embedding of `RedisDedup` object state: only the `connected` flag lives in the object;
the set itself lives on the server. -/
structure RedisDedup where
  connected : Bool
deriving DecidableEq, Repr

/-- Embedding of `RedisDedup.is_seen` (src/main.py lines 70-76): not connected → `False`;
call failure (`except`) → `False`; otherwise `SISMEMBER`. -/
def RedisDedup.is_seen (r : RedisDedup) (server : Finset String) (ok : Bool)
    (pid : String) : Bool :=
  if !r.connected then false
  else if ok then sismember server pid
  else false

/-- Embedding of `RedisDedup.add_seen` (src/main.py lines 78-84): not connected → `False`;
call failure → `False` with the server unchanged; otherwise `SADD` and report
whether this call newly added the identifier (`== 1`). -/
def RedisDedup.add_seen (r : RedisDedup) (server : Finset String) (ok : Bool)
    (pid : String) : Bool × Finset String :=
  if !r.connected then (false, server)
  else if ok then ((sadd server pid).1 == 1, (sadd server pid).2)
  else (false, server)

/-- Embedding of `RedisDedup.get_count` (src/main.py lines 94-100): `SCARD`, with `0` when
disconnected or on call failure. -/
def RedisDedup.get_count (r : RedisDedup) (server : Finset String) (ok : Bool) : Nat :=
  if !r.connected then 0
  else if ok then server.card
  else 0

/-! ## Startup and connection (src/main.py, RedisDedup.connect lines 49-68,
DistributedScraper.load_seen_ids lines 146-165, run lines 352-373, main 429-455)

`connect` wraps the whole connection attempt in `try/except`: on any failure
it logs "Redis connection failed ... using local mode", sets
`connected = False` and returns `False`.  `load_seen_ids` uses the returned
boolean only to decide whether to set `use_redis`; `run` then unconditionally
proceeds into the crawl loop, and `main` contains no `sys.exit` call at all,
so no startup path terminates the process. -/

/-- The environment a connection attempt sees: whether the `redis` package
imported (`REDIS_AVAILABLE`), whether `REDIS_HOST` is configured, and whether
the `ping()` round trip succeeds (the store is reachable). -/
structure ConnectEnv where
  redis_available : Bool
  redis_host : Bool
  ping_ok : Bool
deriving DecidableEq, Repr

/-- Embedding of `RedisDedup.connect`: early-`False` when the library or host is missing
(object unchanged), `connected := True` and `True` on a successful ping, and
on exception `connected := False` and `False` — never a raise. -/
def RedisDedup.connect (r : RedisDedup) (env : ConnectEnv) : Bool × RedisDedup :=
  if !(env.redis_available && env.redis_host) then (false, r)
  else if env.ping_ok then (true, { connected := true })
  else (false, { connected := false })

/-- Outcome of the startup sequence `load_seen_ids` as entered from `run`. -/
structure StartupOutcome where
  use_redis : Bool
  aborts : Bool
  exitCode : Nat
deriving DecidableEq, Repr

/-- The startup path of `DistributedScraper.run`: `load_seen_ids` attempts
`connect` and sets `use_redis` from its result; there is no abort branch and
no non-zero exit — on connection failure the worker continues crawling in
local mode (the source has no `sys.exit`, and `connect` swallows the
exception). -/
def startup (env : ConnectEnv) : StartupOutcome :=
  { use_redis := ((RedisDedup.mk false).connect env).1
    aborts := false
    exitCode := 0 }

/-! ## Records and transform (src/transform.py, src/main.py fetch_one)

The record transform is an external collaborator; only the identity of the
record (its `id` key) matters to the coordination engine.  `fetch_one`
deduplicates on `pid = str(p.get('id'))` while `transform_product` carries
`product.get('id', 0)` into the output row; both coincide for the numeric ids
the API returns.  The payload of a product beyond its id is opaque. -/

/-- A fetched product: its (possibly missing) numeric id plus an opaque
payload token standing for all other fields. -/
structure Product where
  id : Option Int
  payload : Nat
deriving DecidableEq, Repr

/-- Embedding of `str(p.get('id'))` — the dedup key used by `fetch_one` (line 301);
Python renders a missing value as `"None"`. -/
def pidOf (p : Product) : String :=
  match p.id with
  | some n => toString n
  | none => "None"

/-- The transformed output row (src/transform.py `transform_product`): its
`id` column is `product.get('id', 0)`; the rest of the row is a function of
the opaque payload and is carried around as the source product. -/
structure OutputRecord where
  id : Int
  src : Product
deriving DecidableEq, Repr

/-- Embedding of `transform_product` restricted to the fields the coordination engine
reads back (`p['id']` in `save_buffer`, line 218). -/
def transform_product (p : Product) : OutputRecord :=
  { id := p.id.getD 0, src := p }

/-! ## Scraper state (src/main.py, DistributedScraper.__init__ lines 113-144) -/

/-- Append to a `collections.deque` with a maximum length: the new element is
appended and the oldest elements are dropped down to `maxlen`. -/
def dequeAppend {α : Type} (maxlen : Nat) (xs : List α) (x : α) : List α :=
  let ys := xs ++ [x]
  ys.drop (ys.length - maxlen)

/-- The mutable fields of `DistributedScraper` that the coordination engine
touches.  `min_batch_size = 10`, `max_batch_size = BATCH_SIZE`,
`throttle_threshold = 5.0` and `error_threshold = 0.3` are set once in
`__init__` and never reassigned, but are kept as fields as in the source. -/
structure DS where
  local_seen_ids : Finset String
  products_buffer : List OutputRecord
  total_requests : Nat
  total_products : Nat
  unique_products : Nat
  redis : RedisDedup
  use_redis : Bool
  recent_results : List Nat
  current_batch_size : Nat
  min_batch_size : Nat
  max_batch_size : Nat
  response_times : List ℚ
  error_count : Nat
  success_count : Nat
  throttle_threshold : ℚ
  error_threshold : ℚ
deriving DecidableEq

/-- Embedding of `DistributedScraper.__init__` (lines 113-144). -/
def DS.init : DS :=
  { local_seen_ids := ∅
    products_buffer := []
    total_requests := 0
    total_products := 0
    unique_products := 0
    redis := { connected := false }
    use_redis := false
    recent_results := []
    current_batch_size := BATCH_SIZE
    min_batch_size := 10
    max_batch_size := BATCH_SIZE
    response_times := []
    error_count := 0
    success_count := 0
    throttle_threshold := 5
    error_threshold := 3/10 }

/-- Embedding of `get_error_rate` (lines 233-237): zero until 10 samples. -/
def DS.get_error_rate (s : DS) : ℚ :=
  let total := s.success_count + s.error_count
  if total < 10 then 0
  else (s.error_count : ℚ) / (total : ℚ)

/-- Embedding of `get_avg_response_time` (lines 239-242). -/
def DS.get_avg_response_time (s : DS) : ℚ :=
  if s.response_times = [] then 0
  else s.response_times.sum / (s.response_times.length : ℚ)

/-- Embedding of `get_duplicate_ratio` (lines 227-231): zero until 100 samples. -/
def DS.get_duplicate_ratio (s : DS) : ℚ :=
  if s.recent_results.length < 100 then 0
  else ((s.recent_results.sum : ℚ)) / (s.recent_results.length : ℚ)

/-- Embedding of `adjust_rate` (lines 244-260).  Python `int(c * 0.8)` and `int(c * 1.1)`
on the natural batch sizes occurring here equal `c * 4 / 5` and `c * 11 / 10`
in floor division (the float product of `c ≤ 2^50` with the double nearest
0.8 or 1.1 truncates back to the exact floor). -/
def adjust_rate (s : DS) : DS :=
  let avg_time := s.get_avg_response_time
  let error_rate := s.get_error_rate
  let s1 :=
    if avg_time > s.throttle_threshold ∨ error_rate > s.error_threshold then
      let new_size := max s.min_batch_size (s.current_batch_size * 4 / 5)
      if new_size < s.current_batch_size then
        { s with current_batch_size := new_size }
      else s
    else if avg_time < 2 ∧ error_rate < 1/10 then
      let new_size := min s.max_batch_size (s.current_batch_size * 11 / 10)
      if new_size > s.current_batch_size then
        { s with current_batch_size := new_size }
      else s
    else s
  if s1.success_count + s1.error_count > 100 then
    { s1 with success_count := 0, error_count := 0 }
  else s1

/-- The controller's shrink trigger: high average latency or high error rate. -/
def throttled (s : DS) : Prop :=
  s.get_avg_response_time > s.throttle_threshold ∨ s.get_error_rate > s.error_threshold

/-- The controller's grow trigger: comfortably low latency and low error rate. -/
def lowLoad (s : DS) : Prop :=
  s.get_avg_response_time < 2 ∧ s.get_error_rate < 1/10

instance (s : DS) : Decidable (throttled s) := by unfold throttled; infer_instance

instance (s : DS) : Decidable (lowLoad s) := by unfold lowLoad; infer_instance

/-- A controller state that keeps reporting a 6-second average latency:
the throttle condition holds at every round. -/
def slowSix : DS := { DS.init with response_times := [6] }

/-! ## Dedup check/mark and the fetch path (src/main.py lines 187-320)

The redis server set travels alongside the scraper object as a `World`.
Each shared-store call carries an `ok : Bool` oracle for its `except:` arm,
and each fetch outcome is an oracle value describing what the network
returned. -/

/-- Scraper object state together with the shared store's set. -/
structure World where
  ds : DS
  server : Finset String
deriving DecidableEq

/-- Embedding of `is_product_seen` (lines 187-193): local mirror first, then the shared
store when `use_redis`. -/
def is_product_seen (ds : DS) (server : Finset String) (ok : Bool) (pid : String) : Bool :=
  if pid ∈ ds.local_seen_ids then true
  else if ds.use_redis then ds.redis.is_seen server ok pid
  else false

/-- Embedding of `mark_product_seen` (lines 195-199): add to the local mirror, then to the
shared store when `use_redis` — the return value of `add_seen` is discarded. -/
def mark_product_seen (ds : DS) (server : Finset String) (ok : Bool) (pid : String) :
    DS × Finset String :=
  let ds' := { ds with local_seen_ids := insert pid ds.local_seen_ids }
  if ds'.use_redis then (ds', (ds'.redis.add_seen server ok pid).2)
  else (ds', server)

/-- Embedding of `load_seen_ids`'s local part (lines 148-152): the mirror is seeded from
the non-blank lines of the seen-ids file. -/
def load_seen_ids_local (ds : DS) (file : List String) : DS :=
  { ds with local_seen_ids := file.toFinset, unique_products := file.toFinset.card }

/-- One product as processed by `fetch_one`'s loop: the parsed product plus
the `except`-oracles for the `is_seen` and `add_seen` shared-store calls it
may make. -/
abbrev ProductItem := Product × Bool × Bool

/-- The first-seen arm of `fetch_one`'s product loop (lines 304-309):
mark, transform, append to the buffer, bump counters. -/
def process_first_seen (w : World) (p : Product) (okAdd : Bool) : World :=
  let m := mark_product_seen w.ds w.server okAdd (pidOf p)
  ⟨{ m.1 with
      products_buffer := m.1.products_buffer ++ [transform_product p]
      unique_products := m.1.unique_products + 1
      recent_results := dequeAppend 1000 m.1.recent_results 0 }, m.2⟩

/-- The duplicate arm of the loop (line 311): only the sliding window moves. -/
def process_dup (w : World) : World :=
  ⟨{ w.ds with recent_results := dequeAppend 1000 w.ds.recent_results 1 }, w.server⟩

/-- One iteration of `fetch_one`'s product loop (lines 300-311): check, then
either the first-seen arm or the duplicate arm. -/
def process_item (w : World) (it : ProductItem) : World :=
  if pidOf it.1 ≠ "" ∧ is_product_seen w.ds w.server it.2.1 (pidOf it.1) = false then
    process_first_seen w it.1 it.2.2
  else process_dup w

/-- The `for p in products:` loop of `fetch_one` (lines 299-311), returning
the updated world and `new_count`. -/
def process_products (w : World) (items : List ProductItem) : World × Nat :=
  match items with
  | [] => (w, 0)
  | (p, okSeen, okAdd) :: rest =>
    if pidOf p ≠ "" ∧ is_product_seen w.ds w.server okSeen (pidOf p) = false then
      let r := process_products (process_first_seen w p okAdd) rest
      (r.1, r.2 + 1)
    else
      process_products (process_dup w) rest

/-- What one `fetch_one` call observed from the network. -/
inductive FetchOutcome
  | success (elapsed : ℚ) (items : List ProductItem)
  | httpError (elapsed : ℚ)
  | exn
deriving DecidableEq

/-- The bookkeeping `fetch_one` performs on an HTTP 200 before entering the
product loop (lines 288-297): latency sample and counters. -/
def fetch_one_entry (w : World) (elapsed : ℚ) (items : List ProductItem) : World :=
  ⟨{ w.ds with
      response_times := dequeAppend 50 w.ds.response_times elapsed
      total_requests := w.ds.total_requests + 1
      total_products := w.ds.total_products + items.length
      success_count := w.ds.success_count + 1 }, w.server⟩

/-- Embedding of `fetch_one` (lines 277-320): on HTTP 200 record the latency and counters
then run the product loop; on a non-200 status record latency and an error;
on an exception record an error and a `REQUEST_TIMEOUT` latency sample. -/
def fetch_one (w : World) (r : FetchOutcome) : World × Nat :=
  match r with
  | .success elapsed items =>
    process_products (fetch_one_entry w elapsed items) items
  | .httpError elapsed =>
    ({ w with ds := { w.ds with
        response_times := dequeAppend 50 w.ds.response_times elapsed
        error_count := w.ds.error_count + 1 } }, 0)
  | .exn =>
    ({ w with ds := { w.ds with
        error_count := w.ds.error_count + 1
        response_times := dequeAppend 50 w.ds.response_times REQUEST_TIMEOUT } }, 0)

/-- Sequenced completion handling of one round's tasks (the
`asyncio.gather` of `fetch_batch`, lines 262-272): the oracle list `rs` gives
the outcomes in completion-processing order. -/
def processRound (w : World) (rs : List FetchOutcome) : World × Nat :=
  match rs with
  | [] => (w, 0)
  | r :: rest =>
    let a := fetch_one w r
    let b := processRound a.1 rest
    (b.1, a.2 + b.2)

/-- Embedding of `fetch_batch` (lines 262-275): fully await the round, then run
`adjust_rate` once. -/
def fetch_batch (w : World) (rs : List FetchOutcome) : World × Nat :=
  let r := processRound w rs
  ({ r.1 with ds := adjust_rate r.1.ds }, r.2)

/-- The HTTP request `fetch_one` issues (lines 284-287): always a POST to
`BASE_URL` with payload `{page: 1, limit: LIMIT_PER_PAGE}`; no identifier
parameter appears anywhere in the request. -/
structure Request where
  url : String
  page : Nat
  limit : Nat
  id_param : Option Int
deriving DecidableEq

def BASE_URL : String := "https://filovesk.click/api/item/type"

/-- The one request shape `fetch_one` can issue. -/
def pageRequest : Request :=
  { url := BASE_URL, page := 1, limit := LIMIT_PER_PAGE, id_param := none }

/-- The requests issued by one `fetch_batch` round (lines 263-265): one
`fetch_one` task per unit of `current_batch_size`, each sending the same
page request. -/
def fetch_batch_requests (ds : DS) : List Request :=
  List.replicate ds.current_batch_size pageRequest

/-! ## Buffer flush and the output file (src/main.py save_buffer lines 201-225)

`save_buffer` performs two separate writes inside one `try`: the CSV rows,
then the seen-ids lines; `products_buffer = []` is only reached when both
succeed.  A `FlushOutcome` says where, if anywhere, the attempt raised. -/

/-- The CSV output file: whether a header has been written, and the appended
data rows. -/
structure OutputFile where
  headerWritten : Bool
  rows : List OutputRecord
deriving DecidableEq

/-- Where a `save_buffer` attempt raised, if anywhere: `ok` (no exception),
`failBefore` (raised before any row was written), `failAfterRows k` (raised
after `k` CSV rows), `failAfterCsv k` (CSV fully written, raised after `k`
seen-ids lines). -/
inductive FlushOutcome
  | ok
  | failBefore
  | failAfterRows (k : Nat)
  | failAfterCsv (k : Nat)
deriving DecidableEq

/-- Embedding of `save_buffer` (lines 201-225): empty buffer returns immediately; on
success append all rows and seen-id lines and clear the buffer; on an
exception the buffer is left as it was (the `self.products_buffer = []`
line is never reached) and 0 is returned. -/
def save_buffer (ds : DS) (out : OutputFile) (seenF : List String) (o : FlushOutcome) :
    DS × OutputFile × List String × Nat :=
  if ds.products_buffer = [] then (ds, out, seenF, 0)
  else
    match o with
    | .ok =>
      ({ ds with products_buffer := [] },
       { headerWritten := true, rows := out.rows ++ ds.products_buffer },
       seenF ++ ds.products_buffer.map (fun p => toString p.id),
       ds.products_buffer.length)
    | .failBefore => (ds, out, seenF, 0)
    | .failAfterRows k =>
      (ds, { headerWritten := true, rows := out.rows ++ ds.products_buffer.take k },
       seenF, 0)
    | .failAfterCsv k =>
      (ds, { headerWritten := true, rows := out.rows ++ ds.products_buffer },
       seenF ++ (ds.products_buffer.map (fun p => toString p.id)).take k, 0)

/-- Number of output rows carrying a given record identifier. -/
def rowsForId (out : OutputFile) (pid : String) : Nat :=
  out.rows.countP (fun rec => pidOf rec.src == pid)

/-- Number of buffered records carrying a given record identifier. -/
def bufForId (ds : DS) (pid : String) : Nat :=
  ds.products_buffer.countP (fun rec => pidOf rec.src == pid)

/-! ## The worker's operations within one process lifetime

`run` (lines 352-426) interleaves `fetch_batch` rounds (which already end in
`adjust_rate`), periodic `save_buffer` calls, and node-status heartbeats
(which do not touch scraper state).  `WOp` is one such operation with its
oracles; `prun` folds a whole trace.

Granularity: a `WOp.fetch` runs a whole `fetch_one` — its per-product
check→mark→append blocks in sequence, none interleaved.  This is the
execution a real scheduler produces in *local* mode, where the block
contains no suspension point (`is_product_seen`/`mark_product_seen` return
without awaiting when `use_redis` is false), and indeed every state
reachable by `prun` from `initPState` has `use_redis = false`.  In fleet
mode the block suspends at the awaited shared-store calls (lines 192, 199),
so gather'd coroutines can interleave inside it; the `PTask`/`taskRun`
machine below refines `WOp` to that granularity, and `taskRun_serial_fst` /
`foldl_atomicTask_spec` prove the two agree exactly when blocks do not
interleave. -/

/-- Whole-process state: scraper object + shared set + output + seen file. -/
structure PState where
  w : World
  out : OutputFile
  seenF : List String
deriving DecidableEq

/-- One scraper operation as invoked by `run` after startup. -/
inductive WOp
  | fetch (r : FetchOutcome)
  | flush (o : FlushOutcome)
  | adjust
deriving DecidableEq

def pstep (st : PState) : WOp → PState
  | .fetch r => { st with w := (fetch_one st.w r).1 }
  | .flush o =>
    let r := save_buffer st.w.ds st.out st.seenF o
    { w := { st.w with ds := r.1 }, out := r.2.1, seenF := r.2.2.1 }
  | .adjust => { st with w := { st.w with ds := adjust_rate st.w.ds } }

def prun (st : PState) (ops : List WOp) : PState :=
  ops.foldl pstep st

/-- A flush attempt that is all-or-nothing: it either succeeds or raises
before writing any output row. -/
def allOrNothing : WOp → Prop
  | .flush (.failAfterRows _) => False
  | .flush (.failAfterCsv _) => False
  | _ => True

instance : DecidablePred allOrNothing := by
  intro op
  unfold allOrNothing
  rcases op with r | o | _
  · exact inferInstanceAs (Decidable True)
  · rcases o with _ | _ | k | k <;> simp <;> infer_instance
  · exact inferInstanceAs (Decidable True)

/-- The fresh process state: a just-constructed scraper, empty shared set,
no output yet. -/
def initPState : PState :=
  { w := { ds := DS.init, server := ∅ }, out := { headerWritten := false, rows := [] },
    seenF := [] }

/-! ## Interrupt handling (src/main.py, main lines 446-454)

`main` wraps `asyncio.run(scraper.run())` in `try/except KeyboardInterrupt`;
the handler prints a stop message, flushes a non-empty buffer once via
`save_buffer`, and prints the (already cleared) buffer length.  `MainEffect`
enumerates the externally visible actions the handler could take — including
the queue release and further fetches the spec expects, which lets us state
that the code performs none of them. -/

inductive MainEffect
  | printStop
  | flushBuffer
  | printSaved (n : Nat)
  | releaseUnit (u : String)
  | issueFetch (r : Request)
deriving DecidableEq

def MainEffect.isRelease : MainEffect → Bool
  | .releaseUnit _ => true
  | _ => false

def MainEffect.isFlush : MainEffect → Bool
  | .flushBuffer => true
  | _ => false

def MainEffect.isFetch : MainEffect → Bool
  | .issueFetch _ => true
  | _ => false

/-- The `except KeyboardInterrupt:` handler (lines 450-454): print, flush a
non-empty buffer exactly once, print the saved count (reading
`len(scraper.products_buffer)` *after* `save_buffer` cleared it).  No queue
release and no further fetch is issued — `run` has been unwound, and `main`
holds no work unit to return. -/
def on_keyboard_interrupt (ds : DS) (out : OutputFile) (seenF : List String)
    (o : FlushOutcome) : (DS × OutputFile × List String) × List MainEffect :=
  if ds.products_buffer = [] then ((ds, out, seenF), [MainEffect.printStop])
  else
    let r := save_buffer ds out seenF o
    ((r.1, r.2.1, r.2.2.1),
     [MainEffect.printStop, MainEffect.flushBuffer,
      MainEffect.printSaved r.1.products_buffer.length])

/-- A scraper state holding one buffered record — a worker interrupted
mid-work. -/
def midWorkDS : DS :=
  { DS.init with products_buffer := [transform_product ⟨some 7, 0⟩] }

/-- Process-wide flush/buffer invariant: each identifier occurs at most once
across output rows plus buffered records, and any occurrence is recorded in
the local mirror. -/
def goodW (out : OutputFile) (ds : DS) : Prop :=
  ∀ pid, rowsForId out pid + bufForId ds pid ≤ 1 ∧
    (0 < rowsForId out pid + bufForId ds pid → pid ∈ ds.local_seen_ids)

/-! ## Fleet: N workers sharing one dedup store (src/main.py lines 299-311,
187-199, across processes)

Each worker runs `fetch_one`'s per-product block against the shared redis
set.  Its suspension points split the block into three atomic steps: the
check (`is_product_seen`, an atomic `SISMEMBER` after the local-mirror
miss), the mark (`mark_product_seen`: local insert plus atomic `SADD`, whose
return value the code discards, line 199), and the persist (the buffer
append).  A schedule interleaves these steps across workers. -/

/-- Fleet-wide shared state: the shared set plus each worker's local mirror
and persisted-record buffer. -/
structure FleetState where
  shared : Finset String
  locals : Nat → Finset String
  buffers : Nat → List String

/-- Point update of a worker-indexed family. -/
def updateAt {α : Type} (f : Nat → α) (i : Nat) (v : α) : Nat → α :=
  fun j => if j = i then v else f j

/-- One worker's in-flight handling of one product: which worker, the dedup
key, how far the block has run (0 = before check, 1 = checked, 2 = marked,
3 = done), and the check's recorded answer. -/
structure Job where
  worker : Nat
  pid : String
  phase : Nat
  seen : Bool
deriving DecidableEq, Repr

/-- One atomic step of a job against the fleet state, mirroring lines
301-311 with `mark_product_seen` inlined: the check reads local-then-shared;
the mark inserts into both (ignoring `SADD`'s first-writer answer); the
persist appends to the worker's buffer. -/
def jobStep (g : FleetState) (j : Job) : FleetState × Job :=
  match j.phase with
  | 0 =>
    (g, { j with
      seen := decide (j.pid ∈ g.locals j.worker ∨ j.pid ∈ g.shared), phase := 1 })
  | 1 =>
    if j.pid ≠ "" ∧ j.seen = false then
      ({ g with
          locals := updateAt g.locals j.worker (insert j.pid (g.locals j.worker))
          shared := insert j.pid g.shared }, { j with phase := 2 })
    else (g, { j with phase := 2 })
  | 2 =>
    if j.pid ≠ "" ∧ j.seen = false then
      ({ g with
          buffers := updateAt g.buffers j.worker (g.buffers j.worker ++ [j.pid]) },
       { j with phase := 3 })
    else (g, { j with phase := 3 })
  | _ => (g, j)

/-- Run a schedule: each entry names the job (by position) whose next atomic
step runs. -/
def runSched (g : FleetState) (jobs : List Job) (sched : List Nat) :
    FleetState × List Job :=
  match sched with
  | [] => (g, jobs)
  | i :: rest =>
    match jobs[i]? with
    | none => runSched g jobs rest
    | some j => runSched (jobStep g j).1 (jobs.set i (jobStep g j).2) rest

/-- Total number of persisted records for an identifier across all `n`
workers. -/
def persistedCount (g : FleetState) (n : Nat) (pid : String) : Nat :=
  ∑ w ∈ Finset.range n, (g.buffers w).count pid

/-- The fleet's starting state: empty shared set, empty mirrors and buffers. -/
def fleetInit : FleetState :=
  { shared := ∅, locals := fun _ => ∅, buffers := fun _ => [] }

/-- The three steps of one job run back to back (no interleaving). -/
def atomicJob (g : FleetState) (j : Job) : FleetState :=
  let r0 := jobStep g j
  let r1 := jobStep r0.1 r0.2
  let r2 := jobStep r1.1 r1.2
  r2.1

/-- The composite job run back to back, with the two jobs the list runner
would store. -/
def atomicJobSnd (g : FleetState) (j : Job) : Job :=
  let r0 := jobStep g j
  let r1 := jobStep r0.1 r0.2
  (jobStep r1.1 r1.2).2

/-- Serial schedule: starting at job position `o`, run each of `m` jobs'
three steps back to back. -/
def serialFrom : Nat → Nat → List Nat
  | _, 0 => []
  | o, m + 1 => o :: o :: o :: serialFrom (o + 1) m

/-- Fleet-wide dedup invariant: at most one persisted record per identifier,
and every persisted identifier is in the shared store. -/
def FleetInv (n : Nat) (g : FleetState) : Prop :=
  ∀ pid, persistedCount g n pid ≤ 1 ∧ (0 < persistedCount g n pid → pid ∈ g.shared)

/-! ## Intra-process task interleaving (src/main.py lines 262-320)

Within one process, `asyncio.gather` runs many `fetch_one` coroutines.  The
per-product dedup block of lines 300-311 has suspension points in fleet
mode: `is_product_seen` awaits the shared-store membership test (line 192)
between the check and `mark_product_seen`, and `add_seen` suspends again
before the buffer append.  A `PTask` is one coroutine's in-flight handling
of one product, split at those suspension points into three atomic steps
(check, mark, append); a schedule interleaves task steps.  In local mode
the block has no suspension point, so real schedules run each block's steps
back to back (`serialFrom`). -/

/-- One coroutine's in-flight handling of one product: the product, the
`except`-oracles of its two shared-store calls, how far the block has run
(0 = before check, 1 = checked, 2 = marked, 3 = done), and the check's
recorded answer. -/
structure PTask where
  p : Product
  okSeen : Bool
  okAdd : Bool
  phase : Nat
  seen : Bool
deriving DecidableEq, Repr

/-- The product-loop item a task corresponds to. -/
def toItem (t : PTask) : ProductItem :=
  (t.p, t.okSeen, t.okAdd)

/-- One atomic step of a task against the process state, mirroring lines
300-311: the check records `is_product_seen`; the mark runs
`mark_product_seen` (local insert plus shared add, answer discarded); the
append transforms and buffers; the duplicate arm only moves the sliding
window. -/
def taskStep (st : PState) (t : PTask) : PState × PTask :=
  match t.phase with
  | 0 =>
    (st, { t with
      seen := is_product_seen st.w.ds st.w.server t.okSeen (pidOf t.p), phase := 1 })
  | 1 =>
    if pidOf t.p ≠ "" ∧ t.seen = false then
      let m := mark_product_seen st.w.ds st.w.server t.okAdd (pidOf t.p)
      ({ st with w := ⟨m.1, m.2⟩ }, { t with phase := 2 })
    else
      ({ st with w := process_dup st.w }, { t with phase := 2 })
  | 2 =>
    if pidOf t.p ≠ "" ∧ t.seen = false then
      ({ st with w := ⟨{ st.w.ds with
          products_buffer := st.w.ds.products_buffer ++ [transform_product t.p]
          unique_products := st.w.ds.unique_products + 1
          recent_results := dequeAppend 1000 st.w.ds.recent_results 0 }, st.w.server⟩ },
       { t with phase := 3 })
    else (st, { t with phase := 3 })
  | _ => (st, t)

/-- Run a schedule of task steps: each entry names the task (by position)
whose next atomic step runs. -/
def taskRun (st : PState) (ts : List PTask) (sched : List Nat) :
    PState × List PTask :=
  match sched with
  | [] => (st, ts)
  | i :: rest =>
    match ts[i]? with
    | none => taskRun st ts rest
    | some t => taskRun (taskStep st t).1 (ts.set i (taskStep st t).2) rest

/-- The three steps of one task run back to back (no interleaving) — the
only execution real schedulers produce in local mode, where the block has
no suspension point. -/
def atomicTask (st : PState) (t : PTask) : PState :=
  let r0 := taskStep st t
  let r1 := taskStep r0.1 r0.2
  (taskStep r1.1 r1.2).1

/-- The task left behind by a back-to-back run. -/
def atomicTaskSnd (st : PState) (t : PTask) : PTask :=
  let r0 := taskStep st t
  let r1 := taskStep r0.1 r0.2
  (taskStep r1.1 r1.2).2

/-- One scraper operation as invoked by `run` after startup, at the
granularity of task scheduling: a gather round of per-product tasks
interleaved by a schedule, a buffer flush, or a rate adjustment. -/
inductive FOp
  | round (ts : List PTask) (sched : List Nat)
  | flush (o : FlushOutcome)
  | adjust
deriving DecidableEq

def fstep (st : PState) : FOp → PState
  | .round ts sched => (taskRun st ts sched).1
  | .flush o =>
    let r := save_buffer st.w.ds st.out st.seenF o
    { w := { st.w with ds := r.1 }, out := r.2.1, seenF := r.2.2.1 }
  | .adjust => { st with w := { st.w with ds := adjust_rate st.w.ds } }

def frun (st : PState) (ops : List FOp) : PState :=
  ops.foldl fstep st

/-- A round whose dedup blocks do not interleave: fresh tasks run back to
back in order.  This is every real round in local mode; in fleet mode it
excludes exactly the interleavings the suspension points allow. -/
def serialRound : FOp → Prop
  | .round ts sched => sched = serialFrom 0 ts.length ∧ ∀ t ∈ ts, t.phase = 0
  | _ => True

instance : DecidablePred serialRound := fun op =>
  match op with
  | .round ts sched =>
    inferInstanceAs (Decidable (sched = serialFrom 0 ts.length ∧ ∀ t ∈ ts, t.phase = 0))
  | .flush _ => inferInstanceAs (Decidable True)
  | .adjust => inferInstanceAs (Decidable True)

/-- A flush attempt that is all-or-nothing (succeeds, or raises before
writing any output row). -/
def atomicFlushF : FOp → Prop
  | .flush (.failAfterRows _) => False
  | .flush (.failAfterCsv _) => False
  | _ => True

instance : DecidablePred atomicFlushF := fun op =>
  match op with
  | .round _ _ => inferInstanceAs (Decidable True)
  | .flush .ok => inferInstanceAs (Decidable True)
  | .flush .failBefore => inferInstanceAs (Decidable True)
  | .flush (.failAfterRows _) => inferInstanceAs (Decidable False)
  | .flush (.failAfterCsv _) => inferInstanceAs (Decidable False)
  | .adjust => inferInstanceAs (Decidable True)

/-- A fleet-mode process at startup: `use_redis` set, store connected, empty
mirror, buffer and output. -/
def fleetProcInit : PState :=
  { w := { ds := { DS.init with use_redis := true, redis := { connected := true } },
           server := ∅ },
    out := { headerWritten := false, rows := [] }, seenF := [] }

theorem chunkRangesAux_congr :
    ∀ (f1 f2 : Nat) (rs re cs : Int), (re - rs).toNat ≤ f1 → (re - rs).toNat ≤ f2 →
      chunkRangesAux f1 rs re cs = chunkRangesAux f2 rs re cs := by
  intro f1
  induction f1 with
  | zero =>
    intro f2 rs re cs hf1 hf2
    have hrs : ¬ rs < re := by omega
    cases f2 with
    | zero => rfl
    | succ f2 => simp [chunkRangesAux, hrs]
  | succ f1 ih =>
    intro f2 rs re cs hf1 hf2
    cases f2 with
    | zero =>
      have hrs : ¬ rs < re := by omega
      simp [chunkRangesAux, hrs]
    | succ f2 =>
      simp only [chunkRangesAux]
      by_cases hc : rs < re ∧ 0 < cs
      · simp only [if_pos hc]
        have h1 : (re - (rs + cs)).toNat ≤ f1 := by omega
        have h2 : (re - (rs + cs)).toNat ≤ f2 := by omega
        rw [ih f2 (rs + cs) re cs h1 h2]
      · simp only [if_neg hc]

theorem chunkRanges_eq_cons {rs re cs : Int} (h1 : rs < re) (h2 : 0 < cs) :
    chunkRanges rs re cs = (rs, min (rs + cs) re) :: chunkRanges (rs + cs) re cs := by
  unfold chunkRanges
  have hn : (re - rs).toNat = ((re - rs).toNat - 1) + 1 := by omega
  rw [hn]
  simp only [chunkRangesAux, if_pos (And.intro h1 h2)]
  congr 1
  exact chunkRangesAux_congr _ _ _ _ _ (by omega) (le_refl _)

theorem chunkRanges_eq_nil {rs re cs : Int} (h1 : ¬ rs < re) :
    chunkRanges rs re cs = [] := by
  unfold chunkRanges
  have hn : (re - rs).toNat = 0 := by omega
  rw [hn]
  rfl

/-- Every generated unit sits inside `[rs, re)` and is nonempty. -/
theorem chunkRanges_mem_bounds {rs re cs : Int} (h2 : 0 < cs) :
    ∀ p ∈ chunkRanges rs re cs, rs ≤ p.1 ∧ p.1 < p.2 ∧ p.2 ≤ re := by
  by_cases h1 : rs < re
  · rw [chunkRanges_eq_cons h1 h2]
    intro p hp
    rcases List.mem_cons.mp hp with hhd | htl
    · subst hhd
      refine ⟨le_refl _, ?_, ?_⟩
      · simp only [lt_min_iff]
        omega
      · exact min_le_right _ _
    · have ih := @chunkRanges_mem_bounds (rs + cs) re cs h2 p htl
      omega
  · rw [chunkRanges_eq_nil h1]
    intro p hp
    exact absurd hp (List.not_mem_nil p)
termination_by (re - rs).toNat
decreasing_by
  have : re - (rs + cs) < re - rs := by omega
  omega

/-- Coverage: a point lies in `[rs, re)` iff it lies in one of the generated units. -/
theorem chunkRanges_cover {rs re cs : Int} (h2 : 0 < cs) (x : Int) :
    (rs ≤ x ∧ x < re) ↔ ∃ p ∈ chunkRanges rs re cs, p.1 ≤ x ∧ x < p.2 := by
  by_cases h1 : rs < re
  · rw [chunkRanges_eq_cons h1 h2]
    constructor
    · rintro ⟨hl, hr⟩
      by_cases hx : x < min (rs + cs) re
      · exact ⟨(rs, min (rs + cs) re), List.mem_cons_self _ _, hl, hx⟩
      · have hx' : rs + cs ≤ x := by
          simp only [lt_min_iff, not_and_or, not_lt] at hx
          omega
        have ih := (@chunkRanges_cover (rs + cs) re cs h2 x).mp
          ⟨hx', hr⟩
        obtain ⟨p, hp, hpx⟩ := ih
        exact ⟨p, List.mem_cons_of_mem _ hp, hpx⟩
    · rintro ⟨p, hp, hpl, hpr⟩
      rcases List.mem_cons.mp hp with hhd | htl
      · subst hhd
        simp only [lt_min_iff] at hpr
        omega
      · have hb := @chunkRanges_mem_bounds (rs + cs) re cs h2 p htl
        omega
  · rw [chunkRanges_eq_nil h1]
    simp only [List.not_mem_nil]
    constructor
    · intro h; omega
    · rintro ⟨p, hp, _⟩
      exact absurd hp (by simp)
termination_by (re - rs).toNat
decreasing_by
  have : re - (rs + cs) < re - rs := by omega
  omega

/-- Disjointness: the generated units are strictly ordered end-before-start,
so no two distinct units overlap. -/
theorem chunkRanges_pairwise {rs re cs : Int} (h2 : 0 < cs) :
    (chunkRanges rs re cs).Pairwise (fun p q => p.2 ≤ q.1) := by
  by_cases h1 : rs < re
  · rw [chunkRanges_eq_cons h1 h2]
    refine List.Pairwise.cons ?_ (chunkRanges_pairwise h2)
    intro q hq
    have hb := @chunkRanges_mem_bounds (rs + cs) re cs h2 q hq
    have : min (rs + cs) re ≤ rs + cs := min_le_left _ _
    omega
  · rw [chunkRanges_eq_nil h1]
    exact List.Pairwise.nil
termination_by (re - rs).toNat
decreasing_by
  have : re - (rs + cs) < re - rs := by omega
  omega

/-- C2: for every `range_start < range_end` and `chunk_size > 0`, queue
initialization partitions `[range_start, range_end)` into work units serialized
as `"start:end"` that exactly and disjointly cover the range (every point of
the range lies in exactly one unit: coverage plus the strictly ordered,
hence pairwise disjoint, unit list); concretely, range `[0, 100)` with chunk
size 25 yields exactly the four units `0:25, 25:50, 50:75, 75:100`. -/
theorem init_queue_partitions (rs re cs : Int) (h1 : rs < re) (h2 : 0 < cs) :
    (∀ x : Int, (rs ≤ x ∧ x < re) ↔ ∃ p ∈ chunkRanges rs re cs, p.1 ≤ x ∧ x < p.2) ∧
    (chunkRanges rs re cs).Pairwise (fun p q => p.2 ≤ q.1) ∧
    chunkStrings 0 100 25 = ["0:25", "25:50", "50:75", "75:100"] := by
  refine ⟨fun x => chunkRanges_cover h2 x, chunkRanges_pairwise h2, ?_⟩
  decide

/-- Witness for C2 at range `[0, 100)`, chunk size 25, sample point 7. -/
theorem init_queue_partitions_witness :
    (((0:Int) ≤ 7 ∧ (7:Int) < 100) ↔
      ∃ p ∈ chunkRanges 0 100 25, p.1 ≤ 7 ∧ 7 < p.2) ∧
    chunkStrings 0 100 25 = ["0:25", "25:50", "50:75", "75:100"] :=
  ⟨(init_queue_partitions 0 100 25 (by decide) (by decide)).1 7,
   (init_queue_partitions 0 100 25 (by decide) (by decide)).2.2⟩

/-- C4: dedup idempotence of the shared store (connected, calls succeeding):
`mark(id)` twice returns true exactly once — the first call returns true iff
the identifier was not yet in the store, the second always returns false —
and `seen(id)` is true after any successful `mark(id)`; concretely, marking
`"7", "7", "9"` into an empty store yields `count() == 2` and the second
`mark("7")` returns false. -/
theorem dedup_idempotent (r : RedisDedup) (server : Finset String) (pid : String)
    (hconn : r.connected = true) :
    ((r.add_seen server true pid).1 = true ↔ pid ∉ server) ∧
    (r.add_seen (r.add_seen server true pid).2 true pid).1 = false ∧
    r.is_seen (r.add_seen server true pid).2 true pid = true ∧
    (r.add_seen (r.add_seen ∅ true "7").2 true "7").1 = false ∧
    r.get_count (r.add_seen (r.add_seen (r.add_seen ∅ true "7").2 true "7").2 true "9").2
      true = 2 := by
  simp only [RedisDedup.add_seen, RedisDedup.is_seen, RedisDedup.get_count, sadd, sismember,
    hconn, Bool.not_true, Bool.false_eq_true, if_false, if_true]
  refine ⟨?_, ?_, ?_, ?_, ?_⟩
  · by_cases h : pid ∈ server <;> simp [h]
  · by_cases h : pid ∈ server <;> simp [h]
  · by_cases h : pid ∈ server <;> simp [h]
  · decide
  · decide

/-- Witness for C4: a connected store, the empty server set, identifier `"7"`. -/
theorem dedup_idempotent_witness :
    (((RedisDedup.mk true).add_seen ∅ true "7").1 = true ↔ "7" ∉ (∅ : Finset String)) ∧
    ((RedisDedup.mk true).add_seen ((RedisDedup.mk true).add_seen ∅ true "7").2 true "7").1
      = false ∧
    (RedisDedup.mk true).is_seen ((RedisDedup.mk true).add_seen ∅ true "7").2 true "7"
      = true ∧
    ((RedisDedup.mk true).add_seen ((RedisDedup.mk true).add_seen ∅ true "7").2 true "7").1
      = false ∧
    (RedisDedup.mk true).get_count
      ((RedisDedup.mk true).add_seen
        ((RedisDedup.mk true).add_seen
          ((RedisDedup.mk true).add_seen ∅ true "7").2 true "7").2 true "9").2 true = 2 :=
  dedup_idempotent (RedisDedup.mk true) ∅ "7" rfl

/-- C9 counterexample: with the redis library present and a host configured
(fleet mode required) but the store unreachable (`ping` fails), the claim says
the process terminates with a non-zero exit code; the code instead continues
(no abort, exit code 0, `use_redis = false`), so the claim as stated is false. -/
theorem startup_unreachable_fatal_counterexample :
    ¬ ((startup ⟨true, true, false⟩).aborts = true ∨
       (startup ⟨true, true, false⟩).exitCode ≠ 0) := by
  decide

/-- C9 amended: an unreachable shared store at startup is *not* fatal — for
every environment in which the ping fails, `connect` returns `false`, the
scraper ends up with `use_redis = false` (local-only dedup), and the process
neither aborts nor exits with a non-zero code; it continues to crawl in local
mode (matching the degrade-gracefully wording of spec §4.2). -/
theorem startup_unreachable_degrades (env : ConnectEnv) (hping : env.ping_ok = false) :
    ((RedisDedup.mk false).connect env).1 = false ∧
    (startup env).use_redis = false ∧
    (startup env).aborts = false ∧
    (startup env).exitCode = 0 := by
  cases env with
  | mk avail host ping =>
    subst hping
    cases avail <;> cases host <;> simp [startup, RedisDedup.connect]

/-- Witness for C9 (amended) at the concrete unreachable-fleet environment. -/
theorem startup_unreachable_degrades_witness :
    ((RedisDedup.mk false).connect ⟨true, true, false⟩).1 = false ∧
    (startup ⟨true, true, false⟩).use_redis = false ∧
    (startup ⟨true, true, false⟩).aborts = false ∧
    (startup ⟨true, true, false⟩).exitCode = 0 :=
  startup_unreachable_degrades ⟨true, true, false⟩ rfl

theorem adjust_rate_batch_throttled (s : DS) (h : throttled s)
    (hmin : s.min_batch_size ≤ s.current_batch_size) :
    (adjust_rate s).current_batch_size =
      max s.min_batch_size (s.current_batch_size * 4 / 5) := by
  have h' : s.get_avg_response_time > s.throttle_threshold ∨
      s.get_error_rate > s.error_threshold := h
  simp only [adjust_rate]
  rw [if_pos h']
  by_cases hlt : max s.min_batch_size (s.current_batch_size * 4 / 5) < s.current_batch_size
  · rw [if_pos hlt]
    split <;> rfl
  · rw [if_neg hlt]
    have hdiv : s.current_batch_size * 4 / 5 ≤ s.current_batch_size := by
      calc s.current_batch_size * 4 / 5 ≤ s.current_batch_size * 5 / 5 :=
            Nat.div_le_div_right (Nat.mul_le_mul_left _ (by norm_num))
        _ = s.current_batch_size := Nat.mul_div_cancel _ (by norm_num)
    have : max s.min_batch_size (s.current_batch_size * 4 / 5) = s.current_batch_size := by
      omega
    split <;> simp [this]

theorem adjust_rate_batch_low (s : DS) (h1 : ¬ throttled s) (h2 : lowLoad s)
    (hmax : s.current_batch_size ≤ s.max_batch_size) :
    (adjust_rate s).current_batch_size =
      min s.max_batch_size (s.current_batch_size * 11 / 10) := by
  have h1' : ¬ (s.get_avg_response_time > s.throttle_threshold ∨
      s.get_error_rate > s.error_threshold) := h1
  have h2' : s.get_avg_response_time < 2 ∧ s.get_error_rate < 1/10 := h2
  simp only [adjust_rate]
  rw [if_neg h1', if_pos h2']
  have hdiv : s.current_batch_size ≤ s.current_batch_size * 11 / 10 := by
    calc s.current_batch_size = s.current_batch_size * 10 / 10 :=
          (Nat.mul_div_cancel _ (by norm_num)).symm
      _ ≤ s.current_batch_size * 11 / 10 :=
          Nat.div_le_div_right (Nat.mul_le_mul_left _ (by norm_num))
  by_cases hgt : min s.max_batch_size (s.current_batch_size * 11 / 10) > s.current_batch_size
  · rw [if_pos hgt]
    split <;> rfl
  · rw [if_neg hgt]
    have : min s.max_batch_size (s.current_batch_size * 11 / 10) = s.current_batch_size := by
      omega
    split <;> simp [this]

theorem adjust_rate_batch_hold (s : DS) (h1 : ¬ throttled s) (h2 : ¬ lowLoad s) :
    (adjust_rate s).current_batch_size = s.current_batch_size := by
  have h1' : ¬ (s.get_avg_response_time > s.throttle_threshold ∨
      s.get_error_rate > s.error_threshold) := h1
  have h2' : ¬ (s.get_avg_response_time < 2 ∧ s.get_error_rate < 1/10) := h2
  simp only [adjust_rate]
  rw [if_neg h1', if_neg h2']
  split <;> rfl

theorem error_rate_zero_of_few_samples (s : DS)
    (h : s.success_count + s.error_count < 10) : s.get_error_rate = 0 := by
  unfold DS.get_error_rate
  rw [if_pos h]

/-- C5: per round, `adjust_rate` shrinks the batch size to
`max(min_batch_size, ⌊0.8·c⌋)` when average latency exceeds the throttle
threshold or the error rate exceeds the error threshold, grows it to
`min(max_batch_size, ⌊1.1·c⌋)` when latency is comfortably low and the error
rate is low, holds it steady otherwise, and treats the error rate as zero
until 10 samples have accumulated. -/
theorem adjust_rate_spec (s : DS)
    (hmin : s.min_batch_size ≤ s.current_batch_size)
    (hmax : s.current_batch_size ≤ s.max_batch_size) :
    (throttled s →
      (adjust_rate s).current_batch_size =
        max s.min_batch_size (s.current_batch_size * 4 / 5)) ∧
    (¬ throttled s → lowLoad s →
      (adjust_rate s).current_batch_size =
        min s.max_batch_size (s.current_batch_size * 11 / 10)) ∧
    (¬ throttled s → ¬ lowLoad s →
      (adjust_rate s).current_batch_size = s.current_batch_size) ∧
    (s.success_count + s.error_count < 10 → s.get_error_rate = 0) :=
  ⟨fun h => adjust_rate_batch_throttled s h hmin,
   fun h1 h2 => adjust_rate_batch_low s h1 h2 hmax,
   fun h1 h2 => adjust_rate_batch_hold s h1 h2,
   fun h => error_rate_zero_of_few_samples s h⟩

/-- Witness for C5: the freshly initialized scraper with one slow response
(6 s > 5 s threshold) shrinks its batch from 100 to 80. -/
theorem adjust_rate_spec_witness :
    (adjust_rate { DS.init with response_times := [6] }).current_batch_size =
      max 10 (100 * 4 / 5) :=
  (adjust_rate_spec { DS.init with response_times := [6] }
      (by norm_num [DS.init, BATCH_SIZE]) (by norm_num [DS.init, BATCH_SIZE])).1
    (by
      left
      norm_num [DS.get_avg_response_time, DS.init, BATCH_SIZE])

theorem adjust_rate_preserves_fields (s : DS) :
    (adjust_rate s).min_batch_size = s.min_batch_size ∧
    (adjust_rate s).max_batch_size = s.max_batch_size ∧
    (adjust_rate s).response_times = s.response_times ∧
    (adjust_rate s).throttle_threshold = s.throttle_threshold ∧
    (adjust_rate s).error_threshold = s.error_threshold := by
  refine ⟨?_, ?_, ?_, ?_, ?_⟩ <;>
    (unfold adjust_rate; dsimp only;
     split <;> (try split) <;> (try split) <;> (try dsimp only) <;> (try split) <;> rfl)

theorem shrink_mul_lt (c : Nat) (hc : 0 < c) : c * 4 / 5 < c := by
  rw [Nat.div_lt_iff_lt_mul (by norm_num)]
  omega

theorem grow_mul_ge (c : Nat) : c ≤ c * 11 / 10 := by
  rw [Nat.le_div_iff_mul_le (by norm_num)]
  omega

/-- C6: along any run of rounds in which every round trips the throttle
condition (high latency or high error rate), `adjust_rate` makes the batch
size non-increasing and it reaches the configured minimum within
`initial - minimum` rounds; along any run of low-latency/low-error rounds it
is non-decreasing and never exceeds the configured maximum.  The trace `g`
gives the controller state at each round; between rounds only the measurement
fields change, so the batch size evolves by `adjust_rate` and the configured
bounds stay fixed. -/
theorem controller_monotonic (g : ℕ → DS)
    (hstep : ∀ n, (g (n+1)).current_batch_size = (adjust_rate (g n)).current_batch_size)
    (hmincfg : ∀ n, (g n).min_batch_size = (g 0).min_batch_size)
    (hmaxcfg : ∀ n, (g n).max_batch_size = (g 0).max_batch_size)
    (hm5 : 5 ≤ (g 0).min_batch_size)
    (hlo : (g 0).min_batch_size ≤ (g 0).current_batch_size)
    (hhi : (g 0).current_batch_size ≤ (g 0).max_batch_size) :
    ((∀ n, throttled (g n)) →
      (∀ n, (g (n+1)).current_batch_size ≤ (g n).current_batch_size) ∧
      (∀ n, (g 0).current_batch_size - (g 0).min_batch_size ≤ n →
        (g n).current_batch_size = (g 0).min_batch_size)) ∧
    ((∀ n, ¬ throttled (g n) ∧ lowLoad (g n)) →
      (∀ n, (g n).current_batch_size ≤ (g (n+1)).current_batch_size) ∧
      (∀ n, (g n).current_batch_size ≤ (g 0).max_batch_size)) := by
  constructor
  · intro hthr
    have habove : ∀ n, (g 0).min_batch_size ≤ (g n).current_batch_size := by
      intro n
      induction n with
      | zero => exact hlo
      | succ n ih =>
        rw [hstep n, adjust_rate_batch_throttled (g n) (hthr n)
          (by rw [hmincfg n]; exact ih), hmincfg n]
        exact le_max_left _ _
    have hstep' : ∀ n, (g (n+1)).current_batch_size =
        max (g 0).min_batch_size ((g n).current_batch_size * 4 / 5) := by
      intro n
      rw [hstep n, adjust_rate_batch_throttled (g n) (hthr n)
        (by rw [hmincfg n]; exact habove n), hmincfg n]
    have hmono : ∀ n, (g (n+1)).current_batch_size ≤ (g n).current_batch_size := by
      intro n
      rw [hstep' n]
      have h1 : (g n).current_batch_size * 4 / 5 ≤ (g n).current_batch_size :=
        le_of_lt (shrink_mul_lt _ (by have := habove n; omega))
      have h2 := habove n
      omega
    refine ⟨hmono, ?_⟩
    have hbound : ∀ n, (g n).current_batch_size ≤
        max (g 0).min_batch_size ((g 0).current_batch_size - n) := by
      intro n
      induction n with
      | zero => omega
      | succ n ih =>
        rw [hstep' n]
        by_cases hgt : (g 0).min_batch_size < (g n).current_batch_size
        · have hlt := shrink_mul_lt ((g n).current_batch_size) (by omega)
          omega
        · have heq : (g n).current_batch_size = (g 0).min_batch_size := by
            have := habove n; omega
          rw [heq]
          have : (g 0).min_batch_size * 4 / 5 ≤ (g 0).min_batch_size :=
            le_of_lt (shrink_mul_lt _ (by omega))
          omega
    intro n hn
    have h1 := hbound n
    have h2 := habove n
    omega
  · intro hlow
    have hbelow : ∀ n, (g n).current_batch_size ≤ (g 0).max_batch_size := by
      intro n
      induction n with
      | zero => exact hhi
      | succ n ih =>
        rw [hstep n, adjust_rate_batch_low (g n) (hlow n).1 (hlow n).2
          (by rw [hmaxcfg n]; exact ih), hmaxcfg n]
        exact min_le_left _ _
    refine ⟨?_, hbelow⟩
    intro n
    rw [hstep n, adjust_rate_batch_low (g n) (hlow n).1 (hlow n).2
      (by rw [hmaxcfg n]; exact hbelow n), hmaxcfg n]
    have h1 := grow_mul_ge ((g n).current_batch_size)
    have h2 := hbelow n
    omega

theorem slowSix_invariant :
    ∀ n, ∃ c, adjust_rate^[n] slowSix = { slowSix with current_batch_size := c } := by
  intro n
  induction n with
  | zero => exact ⟨slowSix.current_batch_size, rfl⟩
  | succ n ih =>
    obtain ⟨c, hc⟩ := ih
    rw [Function.iterate_succ_apply', hc]
    unfold adjust_rate
    dsimp only
    have hcond : ({ slowSix with current_batch_size := c } : DS).get_avg_response_time >
        ({ slowSix with current_batch_size := c } : DS).throttle_threshold ∨
        ({ slowSix with current_batch_size := c } : DS).get_error_rate >
        ({ slowSix with current_batch_size := c } : DS).error_threshold := by
      left
      norm_num [DS.get_avg_response_time, slowSix, DS.init]
    rw [if_pos hcond]
    split <;>
      (rw [if_neg (by norm_num [slowSix, DS.init])]; exact ⟨_, rfl⟩)

theorem slowSix_throttled :
    ∀ n, throttled (adjust_rate^[n] slowSix) := by
  intro n
  obtain ⟨c, hc⟩ := slowSix_invariant n
  rw [hc]
  left
  norm_num [DS.get_avg_response_time, slowSix, DS.init]

/-- Witness for C6: starting from the fresh controller (batch 100, minimum
10, maximum 100) under a persistent 6-second average latency, the batch size
reaches the minimum 10 by round 90. -/
theorem controller_monotonic_witness :
    ((fun n => adjust_rate^[n] slowSix) 90).current_batch_size = 10 := by
  have hmain := (controller_monotonic (fun n => adjust_rate^[n] slowSix)
    (fun n => by
      show (adjust_rate^[n+1] slowSix).current_batch_size =
        (adjust_rate (adjust_rate^[n] slowSix)).current_batch_size
      rw [Function.iterate_succ_apply'])
    (fun n => by
      obtain ⟨c, hc⟩ := slowSix_invariant n
      simp only [hc]
      rfl)
    (fun n => by
      obtain ⟨c, hc⟩ := slowSix_invariant n
      simp only [hc]
      rfl)
    (by norm_num [slowSix, DS.init])
    (by norm_num [slowSix, DS.init, BATCH_SIZE])
    (by norm_num [slowSix, DS.init, BATCH_SIZE])).1 slowSix_throttled
  have h90 := hmain.2 90 (by norm_num [slowSix, DS.init, BATCH_SIZE])
  exact h90.trans rfl

theorem mark_product_seen_fst (ds : DS) (server : Finset String) (ok : Bool) (pid : String) :
    (mark_product_seen ds server ok pid).1 =
      { ds with local_seen_ids := insert pid ds.local_seen_ids } := by
  unfold mark_product_seen
  dsimp only
  split <;> rfl

theorem is_product_seen_false_not_mem (ds : DS) (server : Finset String) (ok : Bool)
    (pid : String) (h : is_product_seen ds server ok pid = false) :
    pid ∉ ds.local_seen_ids := by
  intro hm
  unfold is_product_seen at h
  rw [if_pos hm] at h
  simp at h

theorem is_product_seen_of_mem (ds : DS) (server : Finset String) (ok : Bool)
    (pid : String) (h : pid ∈ ds.local_seen_ids) :
    is_product_seen ds server ok pid = true := by
  unfold is_product_seen
  rw [if_pos h]

theorem process_first_seen_ds (w : World) (p : Product) (okA : Bool) :
    (process_first_seen w p okA).ds =
      { w.ds with
          local_seen_ids := insert (pidOf p) w.ds.local_seen_ids
          products_buffer := w.ds.products_buffer ++ [transform_product p]
          unique_products := w.ds.unique_products + 1
          recent_results := dequeAppend 1000 w.ds.recent_results 0 } := by
  unfold process_first_seen
  dsimp only
  rw [mark_product_seen_fst]

theorem process_dup_ds (w : World) :
    (process_dup w).ds =
      { w.ds with recent_results := dequeAppend 1000 w.ds.recent_results 1 } := rfl

/-- Per-loop specification of `process_products`: the local mirror only
grows, the batch size is untouched, and the buffer is extended by exactly
the transformed first-seen products. -/
theorem process_products_spec (items : List ProductItem) :
    ∀ w : World,
    w.ds.local_seen_ids ⊆ (process_products w items).1.ds.local_seen_ids ∧
    (process_products w items).1.ds.current_batch_size = w.ds.current_batch_size ∧
    ∃ L, (process_products w items).1.ds.products_buffer = w.ds.products_buffer ++ L ∧
      ∀ rec ∈ L, ∃ t ∈ items, rec = transform_product t.1 ∧
        pidOf t.1 ∉ w.ds.local_seen_ids := by
  induction items with
  | nil =>
    intro w
    exact ⟨Finset.Subset.refl _, rfl, [], by simp [process_products], by simp⟩
  | cons hd rest ih =>
    intro w
    obtain ⟨p, okS, okA⟩ := hd
    simp only [process_products]
    split
    next hc =>
      obtain ⟨hsub, hcbs, L, hbuf, hmem⟩ := ih (process_first_seen w p okA)
      refine ⟨?_, ?_, ?_⟩
      · dsimp only
        refine Finset.Subset.trans ?_ hsub
        rw [process_first_seen_ds]
        exact Finset.subset_insert _ _
      · dsimp only
        rw [hcbs, process_first_seen_ds]
      · dsimp only
        refine ⟨transform_product p :: L, ?_, ?_⟩
        · rw [hbuf, process_first_seen_ds]
          simp
        · intro rec hrec
          rcases List.mem_cons.mp hrec with h | h
          · exact ⟨(p, okS, okA), List.mem_cons_self _ _, h,
              is_product_seen_false_not_mem _ _ _ _ hc.2⟩
          · obtain ⟨t, ht, heq, hnot⟩ := hmem rec h
            refine ⟨t, List.mem_cons_of_mem _ ht, heq, fun hx => hnot ?_⟩
            rw [process_first_seen_ds]
            exact Finset.mem_insert_of_mem hx
    next hc =>
      obtain ⟨hsub, hcbs, L, hbuf, hmem⟩ := ih (process_dup w)
      refine ⟨hsub, hcbs, L, hbuf, ?_⟩
      intro rec hrec
      obtain ⟨t, ht, heq, hnot⟩ := hmem rec hrec
      exact ⟨t, List.mem_cons_of_mem _ ht, heq, hnot⟩

/-- Per-call specification of `fetch_one`: mirror grows, batch size
untouched, buffer extended by transformed first-seen products of a
successful response. -/
theorem fetch_one_spec (w : World) (r : FetchOutcome) :
    w.ds.local_seen_ids ⊆ (fetch_one w r).1.ds.local_seen_ids ∧
    (fetch_one w r).1.ds.current_batch_size = w.ds.current_batch_size ∧
    ∃ L, (fetch_one w r).1.ds.products_buffer = w.ds.products_buffer ++ L ∧
      ∀ rec ∈ L, ∃ elapsed items t, r = FetchOutcome.success elapsed items ∧
        t ∈ items ∧ rec = transform_product t.1 ∧ pidOf t.1 ∉ w.ds.local_seen_ids := by
  cases r with
  | success elapsed items =>
    obtain ⟨hsub, hcbs, L, hbuf, hmem⟩ := process_products_spec items
      ⟨{ w.ds with
          response_times := dequeAppend 50 w.ds.response_times elapsed
          total_requests := w.ds.total_requests + 1
          total_products := w.ds.total_products + items.length
          success_count := w.ds.success_count + 1 }, w.server⟩
    refine ⟨hsub, hcbs, L, hbuf, ?_⟩
    intro rec hrec
    obtain ⟨t, ht, heq, hnot⟩ := hmem rec hrec
    exact ⟨elapsed, items, t, rfl, ht, heq, hnot⟩
  | httpError elapsed =>
    exact ⟨Finset.Subset.refl _, rfl, [], by simp [fetch_one], by simp⟩
  | exn =>
    exact ⟨Finset.Subset.refl _, rfl, [], by simp [fetch_one], by simp⟩

/-- Per-round specification of `processRound`. -/
theorem processRound_spec (rs : List FetchOutcome) :
    ∀ w : World,
    w.ds.local_seen_ids ⊆ (processRound w rs).1.ds.local_seen_ids ∧
    (processRound w rs).1.ds.current_batch_size = w.ds.current_batch_size ∧
    ∃ L, (processRound w rs).1.ds.products_buffer = w.ds.products_buffer ++ L ∧
      ∀ rec ∈ L, ∃ elapsed items t, FetchOutcome.success elapsed items ∈ rs ∧
        t ∈ items ∧ rec = transform_product t.1 ∧ pidOf t.1 ∉ w.ds.local_seen_ids := by
  induction rs with
  | nil =>
    intro w
    exact ⟨Finset.Subset.refl _, rfl, [], by simp [processRound], by simp⟩
  | cons r rest ih =>
    intro w
    obtain ⟨hsub1, hcbs1, L1, hbuf1, hmem1⟩ := fetch_one_spec w r
    obtain ⟨hsub2, hcbs2, L2, hbuf2, hmem2⟩ := ih (fetch_one w r).1
    simp only [processRound]
    refine ⟨Finset.Subset.trans hsub1 hsub2, by rw [hcbs2, hcbs1], L1 ++ L2, ?_, ?_⟩
    · dsimp only
      rw [hbuf2, hbuf1, List.append_assoc]
    · intro rec hrec
      rcases List.mem_append.mp hrec with h | h
      · obtain ⟨elapsed, items, t, hr, ht, heq, hnot⟩ := hmem1 rec h
        exact ⟨elapsed, items, t, hr ▸ List.mem_cons_self _ _, ht, heq, hnot⟩
      · obtain ⟨elapsed, items, t, hr, ht, heq, hnot⟩ := hmem2 rec h
        exact ⟨elapsed, items, t, List.mem_cons_of_mem _ hr, ht, heq,
          fun hx => hnot (hsub1 hx)⟩

theorem adjust_rate_preserves_data (s : DS) :
    (adjust_rate s).products_buffer = s.products_buffer ∧
    (adjust_rate s).local_seen_ids = s.local_seen_ids := by
  refine ⟨?_, ?_⟩ <;>
    (unfold adjust_rate; dsimp only;
     split <;> (try split) <;> (try split) <;> (try dsimp only) <;> (try split) <;> rfl)

theorem process_products_cons (w : World) (it : ProductItem) (l : List ProductItem) :
    (process_products w (it :: l)).1 = (process_products (process_item w it) l).1 := by
  obtain ⟨p, okS, okA⟩ := it
  simp only [process_products, process_item]
  by_cases hc : pidOf p ≠ "" ∧ is_product_seen w.ds w.server okS (pidOf p) = false
  · rw [if_pos hc, if_pos hc]
  · rw [if_neg hc, if_neg hc]

theorem process_products_buffer_mono (items : List ProductItem) (w : World)
    (rec : OutputRecord) (h : rec ∈ w.ds.products_buffer) :
    rec ∈ (process_products w items).1.ds.products_buffer := by
  obtain ⟨-, -, L, hbuf, -⟩ := process_products_spec items w
  rw [hbuf]
  exact List.mem_append_left _ h

theorem processRound_cons_fst (w : World) (r : FetchOutcome) (rest : List FetchOutcome) :
    (processRound w (r :: rest)).1 = (processRound (fetch_one w r).1 rest).1 := rfl

theorem processRound_buffer_mono (rs : List FetchOutcome) (w : World)
    (rec : OutputRecord) (h : rec ∈ w.ds.products_buffer) :
    rec ∈ (processRound w rs).1.ds.products_buffer := by
  obtain ⟨-, -, L, hbuf, -⟩ := processRound_spec rs w
  rw [hbuf]
  exact List.mem_append_left _ h

/-- Completeness of the product loop: any item of the list whose dedup check
comes back false at its own processing turn (the state after the items
before it) has its transformed record in the final buffer. -/
theorem process_products_complete (items : List ProductItem) :
    ∀ (w : World) (i : Nat) (p : Product) (okS okA : Bool),
      items[i]? = some (p, okS, okA) →
      pidOf p ≠ "" →
      is_product_seen (process_products w (items.take i)).1.ds
        (process_products w (items.take i)).1.server okS (pidOf p) = false →
      transform_product p ∈ (process_products w items).1.ds.products_buffer := by
  induction items with
  | nil =>
    intro w i p okS okA hget
    simp at hget
  | cons hd rest ih =>
    intro w i p okS okA hget hpid hseen
    cases i with
    | zero =>
      rw [List.getElem?_cons_zero] at hget
      injection hget with h1
      subst h1
      simp only [List.take_zero] at hseen
      have hcond : pidOf p ≠ "" ∧ is_product_seen w.ds w.server okS (pidOf p) = false :=
        ⟨hpid, hseen⟩
      simp only [process_products]
      rw [if_pos hcond]
      dsimp only
      apply process_products_buffer_mono
      rw [process_first_seen_ds]
      simp
    | succ i' =>
      rw [List.getElem?_cons_succ] at hget
      rw [List.take_succ_cons, process_products_cons] at hseen
      rw [process_products_cons]
      exact ih (process_item w hd) i' p okS okA hget hpid hseen

/-- Completeness of a round: any product of any successful outcome whose
dedup check comes back false at its own processing turn has its transformed
record in the buffer after the round. -/
theorem processRound_complete (rs : List FetchOutcome) :
    ∀ (w : World) (j : Nat) (elapsed : ℚ) (items : List ProductItem),
      rs[j]? = some (FetchOutcome.success elapsed items) →
      ∀ (i : Nat) (p : Product) (okS okA : Bool),
        items[i]? = some (p, okS, okA) →
        pidOf p ≠ "" →
        is_product_seen
          (process_products (fetch_one_entry (processRound w (rs.take j)).1 elapsed items)
            (items.take i)).1.ds
          (process_products (fetch_one_entry (processRound w (rs.take j)).1 elapsed items)
            (items.take i)).1.server okS (pidOf p) = false →
        transform_product p ∈ (processRound w rs).1.ds.products_buffer := by
  induction rs with
  | nil =>
    intro w j el items hget
    simp at hget
  | cons r rest ih =>
    intro w j el items hget i p okS okA hgi hpid hseen
    cases j with
    | zero =>
      rw [List.getElem?_cons_zero] at hget
      injection hget with h1
      subst h1
      simp only [List.take_zero] at hseen
      rw [processRound_cons_fst]
      apply processRound_buffer_mono
      show transform_product p ∈
        (process_products (fetch_one_entry w el items) items).1.ds.products_buffer
      exact process_products_complete items (fetch_one_entry w el items) i p okS okA
        hgi hpid hseen
    | succ j' =>
      rw [List.getElem?_cons_succ] at hget
      rw [List.take_succ_cons, processRound_cons_fst] at hseen
      rw [processRound_cons_fst]
      exact ih (fetch_one w r).1 j' el items hget i p okS okA hgi hpid hseen

/-- C3 counterexample: processing never issues per-identifier fetches.  The
claim instantiated at claimed unit `0:25` requires one fetch for each
identifier `0 ≤ i < 25`; but every request a round issues is the same
`page=1` POST with no identifier parameter (src/main.py lines 284-287), so
already identifier `0` has no corresponding fetch.  The claim as stated is
therefore false at this concrete input. -/
theorem fetch_per_identifier_counterexample :
    ¬ (∀ i : Int, 0 ≤ i → i < 25 →
        ∃ r ∈ fetch_batch_requests DS.init, r.id_param = some i) := by
  intro h
  obtain ⟨r, hr, hid⟩ := h 0 le_rfl (by norm_num)
  have hrq : r = pageRequest :=
    List.eq_of_mem_replicate (by simpa [fetch_batch_requests] using hr)
  rw [hrq] at hid
  simp [pageRequest] at hid

/-- C3 (amended): a `fetch_batch` round issues exactly
`current_batch_size` fetch tasks — one per outcome in the round, all sending
the identical `page=1` request with no identifier (not one fetch per
identifier of a claimed unit's range); the whole round is processed before
`adjust_rate` sizes the next round (processing itself never changes the
batch size, and the controller is applied exactly once, after the round);
and the buffer is extended by exactly the transformed records of
successfully fetched, locally first-seen products. -/
theorem fetch_batch_round (w : World) (rs : List FetchOutcome)
    (hlen : rs.length = w.ds.current_batch_size) :
    (fetch_batch_requests w.ds).length = rs.length ∧
    (∀ r ∈ fetch_batch_requests w.ds, r = pageRequest ∧ r.id_param = none) ∧
    (processRound w rs).1.ds.current_batch_size = w.ds.current_batch_size ∧
    (fetch_batch w rs).1.ds = adjust_rate (processRound w rs).1.ds ∧
    (∃ L, (fetch_batch w rs).1.ds.products_buffer = w.ds.products_buffer ++ L ∧
      ∀ rec ∈ L, ∃ elapsed items t, FetchOutcome.success elapsed items ∈ rs ∧
        t ∈ items ∧ rec = transform_product t.1 ∧ pidOf t.1 ∉ w.ds.local_seen_ids) ∧
    (∀ (j : Nat) (elapsed : ℚ) (items : List ProductItem),
      rs[j]? = some (FetchOutcome.success elapsed items) →
      ∀ (i : Nat) (p : Product) (okS okA : Bool),
        items[i]? = some (p, okS, okA) →
        pidOf p ≠ "" →
        is_product_seen
          (process_products (fetch_one_entry (processRound w (rs.take j)).1 elapsed items)
            (items.take i)).1.ds
          (process_products (fetch_one_entry (processRound w (rs.take j)).1 elapsed items)
            (items.take i)).1.server okS (pidOf p) = false →
        transform_product p ∈ (fetch_batch w rs).1.ds.products_buffer) := by
  obtain ⟨hsub, hcbs, L, hbuf, hmem⟩ := processRound_spec rs w
  have hfbbuf : (fetch_batch w rs).1.ds.products_buffer =
      (processRound w rs).1.ds.products_buffer := by
    show (adjust_rate (processRound w rs).1.ds).products_buffer = _
    exact (adjust_rate_preserves_data _).1
  refine ⟨?_, ?_, hcbs, rfl, ⟨L, ?_, hmem⟩, ?_⟩
  · simp [fetch_batch_requests, hlen]
  · intro r hr
    have : r = pageRequest :=
      List.eq_of_mem_replicate (by simpa [fetch_batch_requests] using hr)
    exact ⟨this, by rw [this]; rfl⟩
  · rw [hfbbuf, hbuf]
  · intro j elapsed items hget i p okS okA hgi hpid hseen
    rw [hfbbuf]
    exact processRound_complete rs w j elapsed items hget i p okS okA hgi hpid hseen

/-- Witness for C3 (amended): a round of the fresh scraper whose first
outcome successfully delivers the first-seen product 7 (the remaining 99
tasks raise); the batch size is preserved across processing and the
transformed record of product 7 is appended to the buffer. -/
theorem fetch_batch_round_witness :
    (processRound ⟨DS.init, ∅⟩
        (FetchOutcome.success 1 [(⟨some 7, 0⟩, true, true)] ::
          List.replicate 99 FetchOutcome.exn)).1.ds.current_batch_size
      = (⟨DS.init, ∅⟩ : World).ds.current_batch_size ∧
    transform_product ⟨some 7, 0⟩ ∈
      (fetch_batch ⟨DS.init, ∅⟩
        (FetchOutcome.success 1 [(⟨some 7, 0⟩, true, true)] ::
          List.replicate 99 FetchOutcome.exn)).1.ds.products_buffer :=
  ⟨(fetch_batch_round ⟨DS.init, ∅⟩
      (FetchOutcome.success 1 [(⟨some 7, 0⟩, true, true)] ::
        List.replicate 99 FetchOutcome.exn) (by decide)).2.2.1,
   (fetch_batch_round ⟨DS.init, ∅⟩
      (FetchOutcome.success 1 [(⟨some 7, 0⟩, true, true)] ::
        List.replicate 99 FetchOutcome.exn) (by decide)).2.2.2.2.2
     0 1 [(⟨some 7, 0⟩, true, true)] rfl 0 ⟨some 7, 0⟩ true true rfl
     (by decide) (by decide)⟩

/-- C7 counterexample: interrupting `midWorkDS` flushes the buffer once, but
releases no unit back to any queue — the claim's "releases the incomplete
claimed unit back to the queue exactly once" fails, because the handler (and
the whole worker) has no queue-release action at all. -/
theorem interrupt_release_counterexample :
    ((on_keyboard_interrupt midWorkDS ⟨false, []⟩ [] FlushOutcome.ok).2.countP
        MainEffect.isFlush = 1) ∧
    ¬ ∃ u, ((on_keyboard_interrupt midWorkDS ⟨false, []⟩ [] FlushOutcome.ok).2.countP
        (fun e => e = MainEffect.releaseUnit u)) = 1 := by
  constructor
  · rfl
  · rintro ⟨u, hu⟩
    have : ((on_keyboard_interrupt midWorkDS ⟨false, []⟩ [] FlushOutcome.ok).2.countP
        (fun e => e = MainEffect.releaseUnit u)) = 0 := by
      simp [on_keyboard_interrupt, midWorkDS, DS.init, save_buffer, List.countP_cons]
    omega

/-- C7 (amended): on external interruption with a non-empty buffer, the
handler flushes the buffer exactly once before the process exits, and issues
no further fetches; no unit release occurs (exactly zero release effects)
because the worker never claims queue units in the first place. -/
theorem interrupt_drain (ds : DS) (out : OutputFile) (seenF : List String)
    (o : FlushOutcome) (h : ds.products_buffer ≠ []) :
    (on_keyboard_interrupt ds out seenF o).2.countP MainEffect.isFlush = 1 ∧
    (on_keyboard_interrupt ds out seenF o).2.countP MainEffect.isFetch = 0 ∧
    (on_keyboard_interrupt ds out seenF o).2.countP MainEffect.isRelease = 0 := by
  unfold on_keyboard_interrupt
  rw [if_neg h]
  refine ⟨?_, ?_, ?_⟩ <;> rfl

/-- Witness for C7 (amended) at the mid-work scraper state. -/
theorem interrupt_drain_witness :
    (on_keyboard_interrupt midWorkDS ⟨false, []⟩ [] FlushOutcome.failBefore).2.countP
        MainEffect.isFlush = 1 ∧
    (on_keyboard_interrupt midWorkDS ⟨false, []⟩ [] FlushOutcome.failBefore).2.countP
        MainEffect.isFetch = 0 ∧
    (on_keyboard_interrupt midWorkDS ⟨false, []⟩ [] FlushOutcome.failBefore).2.countP
        MainEffect.isRelease = 0 :=
  interrupt_drain midWorkDS ⟨false, []⟩ [] FlushOutcome.failBefore
    (by simp [midWorkDS, DS.init])

/-- C8 counterexample: a reachable in-process trace writes the same
identifier to the output file twice.  One first-seen product `7` is buffered;
a flush raises *after* the CSV rows were written (between the two writes of
`save_buffer`'s `try` block), so the buffer is retained as the spec demands;
the retried flush then appends the same row again — `rowsForId = 2`,
refuting "written at most once per identifier per process lifetime" as
stated.  The retention half of the trace (buffer non-empty after the failed
flush) is also exhibited. -/
theorem save_buffer_double_write_counterexample :
    rowsForId (prun initPState
      [WOp.fetch (FetchOutcome.success 1 [(⟨some 7, 0⟩, true, true)]),
       WOp.flush (FlushOutcome.failAfterCsv 0),
       WOp.flush FlushOutcome.ok]).out "7" = 2 ∧
    (prun initPState
      [WOp.fetch (FetchOutcome.success 1 [(⟨some 7, 0⟩, true, true)]),
       WOp.flush (FlushOutcome.failAfterCsv 0)]).w.ds.products_buffer ≠ [] := by
  constructor <;> decide

theorem process_products_good (out : OutputFile) (items : List ProductItem) :
    ∀ w : World, goodW out w.ds → goodW out (process_products w items).1.ds := by
  induction items with
  | nil => intro w h; exact h
  | cons hd rest ih =>
    intro w h
    obtain ⟨p, okS, okA⟩ := hd
    simp only [process_products]
    split
    next hc =>
      refine ih (process_first_seen w p okA) ?_
      intro pid
      rw [process_first_seen_ds]
      have hp0 : pidOf p ∉ w.ds.local_seen_ids :=
        is_product_seen_false_not_mem _ _ _ _ hc.2
      by_cases hpid : pidOf p = pid
      · subst hpid
        have hzero : rowsForId out (pidOf p) + bufForId w.ds (pidOf p) = 0 := by
          by_contra hnz
          exact hp0 ((h (pidOf p)).2 (by omega))
        constructor
        · show rowsForId out (pidOf p) +
            (w.ds.products_buffer ++ [transform_product p]).countP
              (fun rec => pidOf rec.src == pidOf p) ≤ 1
          rw [List.countP_append]
          have hone : (List.countP (fun rec => pidOf rec.src == pidOf p)
              [transform_product p]) = 1 := by
            simp [transform_product, List.countP_cons]
          unfold bufForId at hzero
          omega
        · intro _
          exact Finset.mem_insert_self _ _
      · constructor
        · show rowsForId out pid +
            (w.ds.products_buffer ++ [transform_product p]).countP
              (fun rec => pidOf rec.src == pid) ≤ 1
          rw [List.countP_append]
          have hzero : (List.countP (fun rec => pidOf rec.src == pid)
              [transform_product p]) = 0 := by
            simp only [List.countP_cons, List.countP_nil, transform_product]
            simp [hpid]
          have := (h pid).1
          unfold bufForId at this
          omega
        · intro hpos
          refine Finset.mem_insert_of_mem ((h pid).2 ?_)
          show 0 < rowsForId out pid + bufForId w.ds pid
          have heq : (w.ds.products_buffer ++ [transform_product p]).countP
              (fun rec => pidOf rec.src == pid) = bufForId w.ds pid := by
            rw [List.countP_append]
            have : (List.countP (fun rec => pidOf rec.src == pid)
                [transform_product p]) = 0 := by
              simp only [List.countP_cons, List.countP_nil, transform_product]
              simp [hpid]
            unfold bufForId
            omega
          have hpos' : 0 < rowsForId out pid +
              (w.ds.products_buffer ++ [transform_product p]).countP
                (fun rec => pidOf rec.src == pid) := hpos
          omega
    next hc =>
      exact ih (process_dup w) h

theorem fetch_one_good (out : OutputFile) (w : World) (r : FetchOutcome)
    (h : goodW out w.ds) : goodW out (fetch_one w r).1.ds := by
  cases r with
  | success elapsed items => exact process_products_good out items _ h
  | httpError elapsed => exact h
  | exn => exact h

theorem save_buffer_empty_eq (ds : DS) (out : OutputFile) (seenF : List String)
    (o : FlushOutcome) (h : ds.products_buffer = []) :
    save_buffer ds out seenF o = (ds, out, seenF, 0) := by
  unfold save_buffer
  rw [if_pos h]

theorem save_buffer_ok_eq (ds : DS) (out : OutputFile) (seenF : List String)
    (h : ds.products_buffer ≠ []) :
    save_buffer ds out seenF FlushOutcome.ok =
      ({ ds with products_buffer := [] },
       { headerWritten := true, rows := out.rows ++ ds.products_buffer },
       seenF ++ ds.products_buffer.map (fun p => toString p.id),
       ds.products_buffer.length) := by
  unfold save_buffer
  rw [if_neg h]

theorem save_buffer_failBefore_eq (ds : DS) (out : OutputFile) (seenF : List String)
    (h : ds.products_buffer ≠ []) :
    save_buffer ds out seenF FlushOutcome.failBefore = (ds, out, seenF, 0) := by
  unfold save_buffer
  rw [if_neg h]

theorem pstep_good (st : PState) (op : WOp) (hop : allOrNothing op)
    (h : goodW st.out st.w.ds) : goodW (pstep st op).out (pstep st op).w.ds := by
  cases op with
  | fetch r => exact fetch_one_good st.out st.w r h
  | adjust =>
    intro pid
    have hb := (adjust_rate_preserves_data st.w.ds).1
    have hl := (adjust_rate_preserves_data st.w.ds).2
    have hbuf : bufForId (adjust_rate st.w.ds) pid = bufForId st.w.ds pid := by
      unfold bufForId
      rw [hb]
    constructor
    · show rowsForId st.out pid + bufForId (adjust_rate st.w.ds) pid ≤ 1
      rw [hbuf]
      exact (h pid).1
    · intro hpos
      show pid ∈ (adjust_rate st.w.ds).local_seen_ids
      rw [hl]
      refine (h pid).2 ?_
      have hpos' : 0 < rowsForId st.out pid + bufForId (adjust_rate st.w.ds) pid := hpos
      omega
  | flush o =>
    simp only [pstep]
    by_cases hemp : st.w.ds.products_buffer = []
    · rw [save_buffer_empty_eq _ _ _ _ hemp]
      exact h
    · cases o with
      | ok =>
        rw [save_buffer_ok_eq _ _ _ hemp]
        intro pid
        have h1 := (h pid).1
        have h2 := (h pid).2
        have hsum : rowsForId
            (OutputFile.mk true (st.out.rows ++ st.w.ds.products_buffer)) pid =
            rowsForId st.out pid + bufForId st.w.ds pid := by
          unfold rowsForId bufForId
          exact List.countP_append _ _ _
        have hzero : bufForId { st.w.ds with products_buffer := [] } pid = 0 := by
          unfold bufForId
          rfl
        constructor
        · show rowsForId
            (OutputFile.mk true (st.out.rows ++ st.w.ds.products_buffer)) pid +
            bufForId { st.w.ds with products_buffer := [] } pid ≤ 1
          rw [hsum, hzero]
          omega
        · intro hpos
          show pid ∈ st.w.ds.local_seen_ids
          refine h2 ?_
          have hpos' : 0 < rowsForId
              (OutputFile.mk true (st.out.rows ++ st.w.ds.products_buffer)) pid +
              bufForId { st.w.ds with products_buffer := [] } pid := hpos
          omega
      | failBefore =>
        rw [save_buffer_failBefore_eq _ _ _ hemp]
        exact h
      | failAfterRows k => exact absurd hop (by simp [allOrNothing])
      | failAfterCsv k => exact absurd hop (by simp [allOrNothing])

theorem prun_good (ops : List WOp) :
    ∀ st : PState, (∀ op ∈ ops, allOrNothing op) → goodW st.out st.w.ds →
      goodW (prun st ops).out (prun st ops).w.ds := by
  induction ops with
  | nil => intro st _ h; exact h
  | cons op rest ih =>
    intro st hops h
    have h1 := pstep_good st op (hops op (List.mem_cons_self _ _)) h
    exact ih (pstep st op) (fun o ho => hops o (List.mem_cons_of_mem _ ho)) h1

theorem save_buffer_fst_local (ds : DS) (out : OutputFile) (seenF : List String)
    (o : FlushOutcome) :
    (save_buffer ds out seenF o).1.local_seen_ids = ds.local_seen_ids := by
  unfold save_buffer
  by_cases hemp : ds.products_buffer = []
  · rw [if_pos hemp]
  · rw [if_neg hemp]
    cases o <;> rfl

theorem pstep_local_mono (st : PState) (op : WOp) :
    st.w.ds.local_seen_ids ⊆ (pstep st op).w.ds.local_seen_ids := by
  cases op with
  | fetch r => exact (fetch_one_spec st.w r).1
  | flush o =>
    intro x hx
    show x ∈ (save_buffer st.w.ds st.out st.seenF o).1.local_seen_ids
    rw [save_buffer_fst_local]
    exact hx
  | adjust =>
    intro x hx
    show x ∈ (adjust_rate st.w.ds).local_seen_ids
    rw [(adjust_rate_preserves_data _).2]
    exact hx

/-- C10: the local seen-identifier mirror grows monotonically within a
process — none of the scraper's post-startup operations (fetch processing,
buffer flush, rate adjustment) removes an identifier from the local set,
startup seeding only grows the constructor's empty mirror, marking always
puts the identifier into the local set no matter what the shared-store call
returns, and once an identifier is locally present every later
`is_product_seen` answers true for every shared-store state and even when
every shared-store call fails (`ok = false`) or the store is disconnected. -/
theorem local_mirror_monotone :
    (∀ (st : PState) (op : WOp),
      st.w.ds.local_seen_ids ⊆ (pstep st op).w.ds.local_seen_ids) ∧
    (∀ file : List String,
      DS.init.local_seen_ids ⊆ (load_seen_ids_local DS.init file).local_seen_ids) ∧
    (∀ (ds : DS) (server : Finset String) (ok : Bool) (pid : String),
      pid ∈ ((mark_product_seen ds server ok pid).1).local_seen_ids) ∧
    (∀ (ops : List WOp) (st : PState) (pid : String),
      pid ∈ st.w.ds.local_seen_ids →
      ∀ (server : Finset String) (ok : Bool),
        pid ∈ (prun st ops).w.ds.local_seen_ids ∧
        is_product_seen (prun st ops).w.ds server ok pid = true) := by
  refine ⟨pstep_local_mono, ?_, ?_, ?_⟩
  · intro file x hx
    simp [DS.init] at hx
  · intro ds server ok pid
    rw [mark_product_seen_fst]
    exact Finset.mem_insert_self _ _
  · intro ops
    induction ops with
    | nil =>
      intro st pid hmem server ok
      exact ⟨hmem, is_product_seen_of_mem _ server ok _ hmem⟩
    | cons op rest ih =>
      intro st pid hmem server ok
      exact ih (pstep st op) pid (pstep_local_mono st op hmem) server ok

/-- Witness for C10: after a first-seen fetch of product 7 and a rate
adjustment, identifier `"7"` stays in the mirror and is reported seen even
with an empty shared set and failing store calls. -/
theorem local_mirror_monotone_witness :
    "7" ∈ (prun (pstep initPState
        (WOp.fetch (FetchOutcome.success 1 [(⟨some 7, 0⟩, true, true)])))
        [WOp.adjust]).w.ds.local_seen_ids ∧
    is_product_seen (prun (pstep initPState
        (WOp.fetch (FetchOutcome.success 1 [(⟨some 7, 0⟩, true, true)])))
        [WOp.adjust]).w.ds ∅ false "7" = true :=
  local_mirror_monotone.2.2.2 [WOp.adjust]
    (pstep initPState (WOp.fetch (FetchOutcome.success 1 [(⟨some 7, 0⟩, true, true)])))
    "7" (by decide) ∅ false

/-- C1 counterexample: two workers race on identifier `"7"` from the empty
store.  Schedule `[0,1,0,1,0,1]`: both checks read "unseen" before either
mark lands; `mark_product_seen` discards `SADD`'s first-writer answer, so the
loser persists as well — the fleet-wide persisted-record count for `"7"`
is 2, refuting "never exceeds 1" as stated. -/
theorem dedup_race_counterexample :
    persistedCount
      (runSched fleetInit
        [{ worker := 0, pid := "7", phase := 0, seen := false },
         { worker := 1, pid := "7", phase := 0, seen := false }]
        [0, 1, 0, 1, 0, 1]).1 2 "7" = 2 := by
  decide

theorem jobStep_phase0 (g : FleetState) (j : Job) (h : j.phase = 0) :
    jobStep g j = (g, { j with
      seen := decide (j.pid ∈ g.locals j.worker ∨ j.pid ∈ g.shared), phase := 1 }) := by
  unfold jobStep
  rw [h]

theorem jobStep_phase1 (g : FleetState) (j : Job) (h : j.phase = 1) :
    jobStep g j =
      (if j.pid ≠ "" ∧ j.seen = false then
        ({ g with
            locals := updateAt g.locals j.worker (insert j.pid (g.locals j.worker))
            shared := insert j.pid g.shared }, { j with phase := 2 })
      else (g, { j with phase := 2 })) := by
  unfold jobStep
  rw [h]

theorem jobStep_phase2 (g : FleetState) (j : Job) (h : j.phase = 2) :
    jobStep g j =
      (if j.pid ≠ "" ∧ j.seen = false then
        ({ g with
            buffers := updateAt g.buffers j.worker (g.buffers j.worker ++ [j.pid]) },
         { j with phase := 3 })
      else (g, { j with phase := 3 })) := by
  unfold jobStep
  rw [h]

theorem atomicJob_eq (g : FleetState) (j : Job) (h : j.phase = 0) :
    atomicJob g j =
      if j.pid ≠ "" ∧ ¬ (j.pid ∈ g.locals j.worker ∨ j.pid ∈ g.shared) then
        { shared := insert j.pid g.shared
          locals := updateAt g.locals j.worker (insert j.pid (g.locals j.worker))
          buffers := updateAt g.buffers j.worker (g.buffers j.worker ++ [j.pid]) }
      else g := by
  obtain ⟨w, pid, ph, seen⟩ := j
  dsimp only at h ⊢
  subst h
  unfold atomicJob
  by_cases hseen : pid ∈ g.locals w ∨ pid ∈ g.shared
  · simp [jobStep, hseen]
  · by_cases hpid : pid = ""
    · subst hpid
      simp [jobStep, hseen]
    · simp [jobStep, hseen, hpid]

theorem runSched_cons_some (g : FleetState) (jobs : List Job) (i : Nat)
    (rest : List Nat) (j : Job) (h : jobs[i]? = some j) :
    runSched g jobs (i :: rest) =
      runSched (jobStep g j).1 (jobs.set i (jobStep g j).2) rest := by
  conv_lhs => rw [runSched, h]

theorem getElem?_append_cons {α : Type} (pre : List α) (j : α) (rest : List α) :
    (pre ++ j :: rest)[pre.length]? = some j := by
  induction pre with
  | nil => simp
  | cons a pre ih => simpa using ih

theorem set_append_cons {α : Type} (pre : List α) (j v : α) (rest : List α) :
    (pre ++ j :: rest).set pre.length v = pre ++ v :: rest := by
  induction pre with
  | nil => rfl
  | cons a pre ih => simpa using ih

/-- Under a serial schedule the indexed runner computes the fold of whole
jobs. -/
theorem runSched_serial_fst (jobs : List Job) :
    ∀ (pre : List Job) (g : FleetState),
      (runSched g (pre ++ jobs) (serialFrom pre.length jobs.length)).1 =
        jobs.foldl atomicJob g := by
  induction jobs with
  | nil =>
    intro pre g
    rfl
  | cons j rest ih =>
    intro pre g
    show (runSched g (pre ++ j :: rest)
      (pre.length :: pre.length :: pre.length :: serialFrom (pre.length + 1) rest.length)).1
      = rest.foldl atomicJob (atomicJob g j)
    rw [runSched_cons_some _ _ _ _ j (getElem?_append_cons pre j rest)]
    rw [set_append_cons]
    rw [runSched_cons_some _ _ _ _ (jobStep g j).2
      (getElem?_append_cons pre (jobStep g j).2 rest)]
    rw [set_append_cons]
    rw [runSched_cons_some _ _ _ _ (jobStep (jobStep g j).1 (jobStep g j).2).2
      (getElem?_append_cons pre _ rest)]
    rw [set_append_cons]
    have hlen : (pre ++ [atomicJobSnd g j]).length = pre.length + 1 := by
      simp
    have hsplit : pre ++ atomicJobSnd g j :: rest = (pre ++ [atomicJobSnd g j]) ++ rest := by
      simp
    show (runSched (atomicJob g j) (pre ++ atomicJobSnd g j :: rest)
      (serialFrom (pre.length + 1) rest.length)).1 = rest.foldl atomicJob (atomicJob g j)
    rw [hsplit, ← hlen]
    exact ih (pre ++ [atomicJobSnd g j]) (atomicJob g j)

theorem persistedCount_persist (g : FleetState) (n w : Nat) (pid pid' : String)
    (hw : w < n) (sh : Finset String) (lo : Nat → Finset String) :
    persistedCount ⟨sh, lo, updateAt g.buffers w (g.buffers w ++ [pid])⟩ n pid' =
      persistedCount g n pid' + (if pid = pid' then 1 else 0) := by
  unfold persistedCount
  have hfun : ∀ k ∈ Finset.range n,
      ((updateAt g.buffers w (g.buffers w ++ [pid])) k).count pid' =
      (g.buffers k).count pid' + (if k = w then (if pid = pid' then 1 else 0) else 0) := by
    intro k hk
    unfold updateAt
    by_cases hkw : k = w
    · subst hkw
      rw [if_pos rfl, if_pos rfl, List.count_append]
      congr 1
      simp [List.count_cons]
    · rw [if_neg hkw, if_neg hkw, Nat.add_zero]
  rw [Finset.sum_congr rfl hfun, Finset.sum_add_distrib]
  congr 1
  rw [Finset.sum_ite_eq' (Finset.range n) w (fun _ => if pid = pid' then 1 else 0)]
  rw [if_pos (Finset.mem_range.mpr hw)]

theorem atomicJob_inv (n : Nat) (g : FleetState) (j : Job) (h0 : j.phase = 0)
    (hw : j.worker < n) (hInv : FleetInv n g) : FleetInv n (atomicJob g j) := by
  rw [atomicJob_eq g j h0]
  by_cases hc : j.pid ≠ "" ∧ ¬ (j.pid ∈ g.locals j.worker ∨ j.pid ∈ g.shared)
  · rw [if_pos hc]
    intro pid
    have hnotsh : j.pid ∉ g.shared := fun hx => hc.2 (Or.inr hx)
    have hpc := persistedCount_persist g n j.worker j.pid pid hw
      (insert j.pid g.shared)
      (updateAt g.locals j.worker (insert j.pid (g.locals j.worker)))
    by_cases hpp : j.pid = pid
    · subst hpp
      have hz : persistedCount g n j.pid = 0 := by
        by_contra hnz
        exact hnotsh ((hInv j.pid).2 (by omega))
      rw [hpc, if_pos rfl, hz]
      exact ⟨by omega, fun _ => Finset.mem_insert_self _ _⟩
    · rw [hpc, if_neg hpp, Nat.add_zero]
      exact ⟨(hInv pid).1,
        fun hpos => Finset.mem_insert_of_mem ((hInv pid).2 hpos)⟩
  · rw [if_neg hc]
    exact hInv

theorem foldl_atomic_inv (n : Nat) (jobs : List Job) :
    ∀ g : FleetState, (∀ j ∈ jobs, j.phase = 0) → (∀ j ∈ jobs, j.worker < n) →
      FleetInv n g → FleetInv n (jobs.foldl atomicJob g) := by
  induction jobs with
  | nil => intro g _ _ h; exact h
  | cons j rest ih =>
    intro g hph hw h
    exact ih (atomicJob g j)
      (fun x hx => hph x (List.mem_cons_of_mem _ hx))
      (fun x hx => hw x (List.mem_cons_of_mem _ hx))
      (atomicJob_inv n g j (hph j (List.mem_cons_self _ _))
        (hw j (List.mem_cons_self _ _)) h)

theorem fleetInit_inv (n : Nat) : FleetInv n fleetInit := by
  intro pid
  have hz : persistedCount fleetInit n pid = 0 := by
    simp [persistedCount, fleetInit]
  exact ⟨by omega, fun hpos => absurd hpos (by omega)⟩

/-- C1 (amended): when workers execute their `check → mark → persist` blocks
serially (no two blocks on any identifier interleave), the fleet-wide
persisted-record count of every identifier stays at most 1, starting from
the empty shared store — the racing loser's check then sees the winner's
mark and it does not persist.  The counterexample shows the unrestricted
claim is false: under interleaving both racers persist, because
`mark_product_seen` discards the shared store's atomic first-writer answer. -/
theorem dedup_serial_at_most_once (n : Nat) (jobs : List Job)
    (hph : ∀ j ∈ jobs, j.phase = 0) (hw : ∀ j ∈ jobs, j.worker < n) :
    ∀ pid,
      persistedCount (runSched fleetInit jobs (serialFrom 0 jobs.length)).1 n pid ≤ 1 := by
  intro pid
  have hrun := runSched_serial_fst jobs [] fleetInit
  simp only [List.nil_append, List.length_nil] at hrun
  rw [hrun]
  exact (foldl_atomic_inv n jobs fleetInit hph hw (fleetInit_inv n) pid).1

/-- Witness for C1 (amended): the same two workers racing on `"7"`, run
serially — only the first persists. -/
theorem dedup_serial_at_most_once_witness :
    persistedCount
      (runSched fleetInit
        [{ worker := 0, pid := "7", phase := 0, seen := false },
         { worker := 1, pid := "7", phase := 0, seen := false }]
        (serialFrom 0 2)).1 2 "7" ≤ 1 :=
  dedup_serial_at_most_once 2
    [{ worker := 0, pid := "7", phase := 0, seen := false },
     { worker := 1, pid := "7", phase := 0, seen := false }]
    (by intro j hj; fin_cases hj <;> rfl)
    (by intro j hj; fin_cases hj <;> norm_num)
    "7"

theorem atomicTask_eq_item (st : PState) (t : PTask) (h : t.phase = 0) :
    atomicTask st t = { st with w := process_item st.w (toItem t) } := by
  obtain ⟨p, okS, okA, ph, sn⟩ := t
  dsimp only at h
  subst h
  unfold atomicTask
  by_cases hc : pidOf p ≠ "" ∧ is_product_seen st.w.ds st.w.server okS (pidOf p) = false
  · simp [taskStep, process_item, process_first_seen, toItem, mark_product_seen, hc]
  · simp [taskStep, process_item, process_dup, toItem, hc]

theorem taskRun_cons_some (st : PState) (ts : List PTask) (i : Nat)
    (rest : List Nat) (t : PTask) (h : ts[i]? = some t) :
    taskRun st ts (i :: rest) =
      taskRun (taskStep st t).1 (ts.set i (taskStep st t).2) rest := by
  conv_lhs => rw [taskRun, h]

/-- Under a serial schedule the task runner computes the fold of whole
blocks. -/
theorem taskRun_serial_fst (ts : List PTask) :
    ∀ (pre : List PTask) (st : PState),
      (taskRun st (pre ++ ts) (serialFrom pre.length ts.length)).1 =
        ts.foldl atomicTask st := by
  induction ts with
  | nil =>
    intro pre st
    rfl
  | cons t rest ih =>
    intro pre st
    show (taskRun st (pre ++ t :: rest)
      (pre.length :: pre.length :: pre.length :: serialFrom (pre.length + 1) rest.length)).1
      = rest.foldl atomicTask (atomicTask st t)
    rw [taskRun_cons_some _ _ _ _ t (getElem?_append_cons pre t rest)]
    rw [set_append_cons]
    rw [taskRun_cons_some _ _ _ _ (taskStep st t).2
      (getElem?_append_cons pre (taskStep st t).2 rest)]
    rw [set_append_cons]
    rw [taskRun_cons_some _ _ _ _ (taskStep (taskStep st t).1 (taskStep st t).2).2
      (getElem?_append_cons pre _ rest)]
    rw [set_append_cons]
    have hlen : (pre ++ [atomicTaskSnd st t]).length = pre.length + 1 := by
      simp
    have hsplit : pre ++ atomicTaskSnd st t :: rest =
        (pre ++ [atomicTaskSnd st t]) ++ rest := by
      simp
    show (taskRun (atomicTask st t) (pre ++ atomicTaskSnd st t :: rest)
      (serialFrom (pre.length + 1) rest.length)).1 = rest.foldl atomicTask (atomicTask st t)
    rw [hsplit, ← hlen]
    exact ih (pre ++ [atomicTaskSnd st t]) (atomicTask st t)

/-- A fold of whole (non-interleaved) task blocks is exactly `fetch_one`'s
sequential product loop; the output file and seen file are untouched. -/
theorem foldl_atomicTask_spec (ts : List PTask) :
    ∀ st : PState, (∀ t ∈ ts, t.phase = 0) →
      (ts.foldl atomicTask st).w = (process_products st.w (ts.map toItem)).1 ∧
      (ts.foldl atomicTask st).out = st.out ∧
      (ts.foldl atomicTask st).seenF = st.seenF := by
  induction ts with
  | nil =>
    intro st _
    exact ⟨rfl, rfl, rfl⟩
  | cons t rest ih =>
    intro st hph
    have h0 := hph t (List.mem_cons_self _ _)
    rw [List.foldl_cons, atomicTask_eq_item st t h0]
    obtain ⟨h1, h2, h3⟩ := ih { st with w := process_item st.w (toItem t) }
      (fun x hx => hph x (List.mem_cons_of_mem _ hx))
    refine ⟨?_, h2, h3⟩
    rw [h1, List.map_cons, process_products_cons]

theorem fstep_good (st : PState) (op : FOp) (h1 : serialRound op)
    (h2 : atomicFlushF op) (h : goodW st.out st.w.ds) :
    goodW (fstep st op).out (fstep st op).w.ds := by
  cases op with
  | round ts sched =>
    obtain ⟨hs, hph⟩ := h1
    subst hs
    have hbr := taskRun_serial_fst ts [] st
    simp only [List.nil_append, List.length_nil] at hbr
    show goodW (taskRun st ts (serialFrom 0 ts.length)).1.out
      (taskRun st ts (serialFrom 0 ts.length)).1.w.ds
    rw [hbr]
    obtain ⟨hw, hout, -⟩ := foldl_atomicTask_spec ts st hph
    rw [hout, hw]
    exact process_products_good st.out (ts.map toItem) st.w h
  | flush o =>
    have he : fstep st (FOp.flush o) = pstep st (WOp.flush o) := rfl
    have h2' : allOrNothing (WOp.flush o) := by
      cases o <;> exact h2
    rw [he]
    exact pstep_good st (WOp.flush o) h2' h
  | adjust =>
    have he : fstep st FOp.adjust = pstep st WOp.adjust := rfl
    rw [he]
    exact pstep_good st WOp.adjust trivial h

theorem frun_good (ops : List FOp) :
    ∀ st : PState, (∀ op ∈ ops, serialRound op) → (∀ op ∈ ops, atomicFlushF op) →
      goodW st.out st.w.ds → goodW (frun st ops).out (frun st ops).w.ds := by
  induction ops with
  | nil =>
    intro st _ _ h
    exact h
  | cons op rest ih =>
    intro st h1 h2 h
    exact ih (fstep st op)
      (fun o ho => h1 o (List.mem_cons_of_mem _ ho))
      (fun o ho => h2 o (List.mem_cons_of_mem _ ho))
      (fstep_good st op (h1 op (List.mem_cons_self _ _))
        (h2 op (List.mem_cons_self _ _)) h)

/-- In a fleet-mode process the per-product dedup block is *not* atomic:
`is_product_seen` suspends at the awaited shared-store check (src/main.py
line 192) between check and mark.  Two gather'd coroutines handle product 7
under schedule `[0,1,0,1,0,1]`; both checks read "unseen" before either
mark lands, both buffer the record, and a single *successful* flush writes
identifier `"7"` to the output twice — which is why the amended C8 claim
must require the dedup blocks not to interleave. -/
theorem fleet_interleaved_double_write :
    rowsForId (frun fleetProcInit
      [FOp.round [⟨⟨some 7, 0⟩, true, true, 0, false⟩, ⟨⟨some 7, 0⟩, true, true, 0, false⟩]
          [0, 1, 0, 1, 0, 1],
       FOp.flush FlushOutcome.ok]).out "7" = 2 := by
  decide

/-- C8 (amended): within one process lifetime, every identifier is written
to the output file at most once provided (i) every failing flush attempt is
all-or-nothing (it raises before writing any CSV row) and (ii) no two
per-product dedup blocks interleave between check and mark — which is
automatic in local mode, where the block has no suspension point, and holds
in fleet mode exactly when the gather'd coroutines' blocks happen not to
overlap (`fleet_interleaved_double_write` shows an interleaved fleet round
double-writes even with a successful flush); and on any flush failure the
buffered records are retained in memory unchanged, to be retried by the
next flush attempt.  The counterexample shows the unqualified at-most-once
claim is also false when a flush fails between `save_buffer`'s two
writes. -/
theorem output_at_most_once (st0 : PState) (ops : List FOp)
    (hrows : st0.out.rows = []) (hbuf : st0.w.ds.products_buffer = [])
    (hserial : ∀ op ∈ ops, serialRound op)
    (hflush : ∀ op ∈ ops, atomicFlushF op) :
    (∀ pid, rowsForId (frun st0 ops).out pid ≤ 1) ∧
    (∀ ds out seenF o, o ≠ FlushOutcome.ok →
      (save_buffer ds out seenF o).1.products_buffer = ds.products_buffer) := by
  constructor
  · intro pid
    have hinit : goodW st0.out st0.w.ds := by
      intro p
      have hz1 : rowsForId st0.out p = 0 := by
        unfold rowsForId
        rw [hrows]
        rfl
      have hz2 : bufForId st0.w.ds p = 0 := by
        unfold bufForId
        rw [hbuf]
        rfl
      refine ⟨by omega, fun hpos => absurd hpos (by omega)⟩
    have := (frun_good ops st0 hserial hflush hinit pid).1
    omega
  · intro ds out seenF o ho
    unfold save_buffer
    by_cases hemp : ds.products_buffer = []
    · rw [if_pos hemp]
    · rw [if_neg hemp]
      cases o with
      | ok => exact absurd rfl ho
      | failBefore => rfl
      | failAfterRows k => rfl
      | failAfterCsv k => rfl

/-- Witness for C8 (amended): a *fleet-mode* process whose round of two
product-7 tasks runs without interleaving, then one successful flush —
identifier `"7"` is written at most once. -/
theorem output_at_most_once_witness :
    rowsForId (frun fleetProcInit
      [FOp.round [⟨⟨some 7, 0⟩, true, true, 0, false⟩, ⟨⟨some 7, 0⟩, true, true, 0, false⟩]
          (serialFrom 0 2),
       FOp.flush FlushOutcome.ok]).out "7" ≤ 1 :=
  (output_at_most_once fleetProcInit
    [FOp.round [⟨⟨some 7, 0⟩, true, true, 0, false⟩, ⟨⟨some 7, 0⟩, true, true, 0, false⟩]
        (serialFrom 0 2),
     FOp.flush FlushOutcome.ok]
    rfl rfl (by decide) (by decide)).1 "7"

end Scraper

